import Mathlib

/-!
# fluxor-cache: a caching reverse proxy for the Go module protocol

A shallow embedding of `cmd/fluxcache/main.go`: the location function `cachePath`,
the hit path `serveFromCache`, the miss path `fetchAndCache` and the `"/"` handler
registered in `main`, together with models of the Go library functions they call
(`crypto/sha256`, `encoding/hex`, `path/filepath`, `net/url`, `os`, `net/http`).

Conventions.
* A Go `string` / `[]byte` is a list of bytes (`GoString`).
* The file system is a map from path to node (regular file or directory); the current
  directory, the root directory and chains of `..` always exist.
* The response writer records what the handler hands to the HTTP server: the header map,
  the status of the first `WriteHeader`, and the bytes written.
* A Go run-time panic is an `Except.error`; a handler that panics produces no response
  (the `net/http` server recovers the panic and closes the connection).
* The `-v` logging branches only print and are left out.
-/

namespace Fluxor

/-- A Go `byte`: arithmetic on it wraps modulo 256. -/
abbrev Byte := Fin 256

/-- A Go `string` or `[]byte`: a finite sequence of bytes. -/
abbrev GoString := List Byte

/-- The bytes (UTF-8) of a string literal. -/
def str (s : String) : GoString :=
  (s.data.flatMap String.utf8EncodeChar).map (fun b => b.val)

/-- A Go run-time panic. -/
inductive Panic where
  | sliceBounds
  | nilDereference
deriving DecidableEq, Repr

/-! ## crypto/sha256 -/

namespace sha256

/-- The round constants of SHA-256. -/
def K : List Nat := [
  0x428a2f98, 0x71374491, 0xb5c0fbcf, 0xe9b5dba5, 0x3956c25b, 0x59f111f1, 0x923f82a4, 0xab1c5ed5,
  0xd807aa98, 0x12835b01, 0x243185be, 0x550c7dc3, 0x72be5d74, 0x80deb1fe, 0x9bdc06a7, 0xc19bf174,
  0xe49b69c1, 0xefbe4786, 0x0fc19dc6, 0x240ca1cc, 0x2de92c6f, 0x4a7484aa, 0x5cb0a9dc, 0x76f988da,
  0x983e5152, 0xa831c66d, 0xb00327c8, 0xbf597fc7, 0xc6e00bf3, 0xd5a79147, 0x06ca6351, 0x14292967,
  0x27b70a85, 0x2e1b2138, 0x4d2c6dfc, 0x53380d13, 0x650a7354, 0x766a0abb, 0x81c2c92e, 0x92722c85,
  0xa2bfe8a1, 0xa81a664b, 0xc24b8b70, 0xc76c51a3, 0xd192e819, 0xd6990624, 0xf40e3585, 0x106aa070,
  0x19a4c116, 0x1e376c08, 0x2748774c, 0x34b0bcb5, 0x391c0cb3, 0x4ed8aa4a, 0x5b9cca4f, 0x682e6ff3,
  0x748f82ee, 0x78a5636f, 0x84c87814, 0x8cc70208, 0x90befffa, 0xa4506ceb, 0xbef9a3f7, 0xc67178f2]

/-- The eight 32-bit chaining words. -/
structure Digest where
  h0 : Nat
  h1 : Nat
  h2 : Nat
  h3 : Nat
  h4 : Nat
  h5 : Nat
  h6 : Nat
  h7 : Nat

/-- The initial chaining value. -/
def init : Digest :=
  ⟨0x6a09e667, 0xbb67ae85, 0x3c6ef372, 0xa54ff53a, 0x510e527f, 0x9b05688c, 0x1f83d9ab, 0x5be0cd19⟩

/-- Truncation to a `uint32`. -/
def w32 (x : Nat) : Nat := x % 2 ^ 32

/-- Rotation of a `uint32` to the right (`bits.RotateLeft32(x, -n)`). -/
def rotr (x n : Nat) : Nat := w32 ((x >>> n) ||| (x <<< (32 - n)))

/-- A big-endian `uint32` from four bytes. -/
def be32 (b0 b1 b2 b3 : Byte) : Nat :=
  b0.val <<< 24 ||| b1.val <<< 16 ||| b2.val <<< 8 ||| b3.val

/-- The 16 message words of a 64-byte block. -/
def words : List Byte → List Nat
  | b0 :: b1 :: b2 :: b3 :: rest => be32 b0 b1 b2 b3 :: words rest
  | _ => []

/-- The message schedule: `n` further words appended to `w`. -/
def extend : Nat → List Nat → List Nat
  | 0, w => w
  | n + 1, w =>
    let i := w.length
    let v1 := w.getD (i - 2) 0
    let t1 := rotr v1 17 ^^^ rotr v1 19 ^^^ (v1 >>> 10)
    let v2 := w.getD (i - 15) 0
    let t2 := rotr v2 7 ^^^ rotr v2 18 ^^^ (v2 >>> 3)
    extend n (w ++ [w32 (t1 + w.getD (i - 7) 0 + t2 + w.getD (i - 16) 0)])

/-- One of the 64 rounds, on the working variables `a .. h`, with constant and word `kw`. -/
def round (s : Digest) (kw : Nat × Nat) : Digest :=
  let ⟨a, b, c, d, e, f, g, h⟩ := s
  let t1 := h + (rotr e 6 ^^^ rotr e 11 ^^^ rotr e 25)
    + ((e &&& f) ^^^ ((e ^^^ 0xffffffff) &&& g)) + kw.1 + kw.2
  let t2 := (rotr a 2 ^^^ rotr a 13 ^^^ rotr a 22) + ((a &&& b) ^^^ (a &&& c) ^^^ (b &&& c))
  ⟨w32 (t1 + t2), a, b, c, w32 (d + t1), e, f, g⟩

/-- The compression of one 64-byte block `p` into the chaining value `s`. -/
def block (s : Digest) (p : List Byte) : Digest :=
  let w := extend 48 (words p)
  let t := (K.zip w).foldl round s
  ⟨w32 (s.h0 + t.h0), w32 (s.h1 + t.h1), w32 (s.h2 + t.h2), w32 (s.h3 + t.h3),
   w32 (s.h4 + t.h4), w32 (s.h5 + t.h5), w32 (s.h6 + t.h6), w32 (s.h7 + t.h7)⟩

/-- The compression of `n` consecutive blocks. -/
def blocks : Nat → Digest → List Byte → Digest
  | 0, s, _ => s
  | n + 1, s, p => blocks n (block s (p.take 64)) (p.drop 64)

/-- The four bytes of a `uint32`, big-endian (`binary.BigEndian.PutUint32`). -/
def putUint32 (x : Nat) : List Byte :=
  [Fin.ofNat (x >>> 24), Fin.ofNat (x >>> 16), Fin.ofNat (x >>> 8), Fin.ofNat x]

/-- The eight bytes of a `uint64`, big-endian. -/
def putUint64 (x : Nat) : List Byte :=
  putUint32 (x >>> 32) ++ putUint32 x

/-- The padding of a message of `len` bytes: `0x80`, zeros up to 56 mod 64, the bit length. -/
def pad (len : Nat) : List Byte :=
  let t := (len + 8) % 64
  (0x80 : Byte) :: List.replicate (63 - t) 0 ++ putUint64 ((len <<< 3) % 2 ^ 64)

/-- The model of `sha256.Sum256`: the 32-byte SHA-256 digest of `data`. -/
def Sum256 (data : List Byte) : List Byte :=
  let p := data ++ pad data.length
  let s := blocks (p.length / 64) init p
  putUint32 s.h0 ++ putUint32 s.h1 ++ putUint32 s.h2 ++ putUint32 s.h3 ++
  putUint32 s.h4 ++ putUint32 s.h5 ++ putUint32 s.h6 ++ putUint32 s.h7

end sha256

/-! ## encoding/hex -/

namespace hex

/-- The digit table of `encoding/hex`. -/
def hextable : GoString := str "0123456789abcdef"

/-- The model of `hex.EncodeToString`: `hextable[v>>4]`, `hextable[v&0x0f]` for every byte `v`. -/
def EncodeToString : List Byte → GoString
  | [] => []
  | v :: rest =>
    hextable.getD (v.val >>> 4) 0 :: hextable.getD (v.val &&& 0x0f) 0 :: EncodeToString rest

end hex

/-- A lowercase hexadecimal digit: `0-9` or `a-f`. -/
def isLowerHex (c : Byte) : Bool :=
  (48 ≤ c.val && c.val ≤ 57) || (97 ≤ c.val && c.val ≤ 102)

/-- The slice expression `s[lo:hi]` of Go, which panics when out of range. -/
def slice (s : GoString) (lo hi : Nat) : Except Panic GoString :=
  if lo ≤ hi ∧ hi ≤ s.length then .ok ((s.take hi).drop lo) else .error Panic.sliceBounds

/-! ## path/filepath (Unix) -/

namespace filepath

/-- The path separator `'/'`. -/
def Separator : Byte := 47

/-- The byte `'.'`. -/
def Dot : Byte := 46

/-- Whether the input is exhausted or continues with a separator
(`r == n || path[r] == '/'`). -/
def atBoundary : GoString → Bool
  | [] => true
  | c :: _ => c == Separator

/-- The inner loop of the `..` case of `Clean`, from `out.w = w`:
`for out.w > dotdot && out.index(out.w) != '/' { out.w-- }`; the final `out.w`. -/
def unwind (out : GoString) (dotdot : Nat) : Nat → Nat
  | 0 => 0
  | w + 1 =>
    if dotdot < w + 1 ∧ out.getD (w + 1) 0 ≠ Separator then unwind out dotdot w else w + 1

/-- The `..` case of `Clean` when it can backtrack: `out.w--` and then the loop `unwind`;
the buffer is cut at the final `out.w`. -/
def backtrack (out : GoString) (dotdot : Nat) : GoString :=
  out.take (unwind out dotdot (out.length - 1))

/-- One iteration of the main loop of `Clean`, on the input `c :: rest` still to read
(`path[r:]`), with `out` the buffer written so far (`buf[:w]`) and `dotdot` the index where
`..` must stop: the input left to read, the buffer and `dotdot` after the iteration. -/
def cleanStep (rooted : Bool) (c : Byte) (rest out : GoString) (dotdot : Nat) :
    GoString × GoString × Nat :=
  if c = Separator then
    -- empty path element
    (rest, out, dotdot)
  else if c = Dot ∧ atBoundary rest then
    -- . element
    (rest, out, dotdot)
  else if c = Dot ∧ rest.head? = some Dot ∧ atBoundary rest.tail then
    -- .. element: remove to last /
    if dotdot < out.length then
      -- can backtrack
      (rest.tail, backtrack out dotdot, dotdot)
    else if !rooted then
      -- cannot backtrack, but not rooted, so append .. element.
      let out1 := (if 0 < out.length then out ++ [Separator] else out) ++ [Dot, Dot]
      (rest.tail, out1, out1.length)
    else
      (rest.tail, out, dotdot)
  else
    -- real path element: add slash if needed, copy element
    let out1 :=
      if (rooted ∧ out.length ≠ 1) ∨ (¬ rooted ∧ out.length ≠ 0) then out ++ [Separator]
      else out
    ((c :: rest).dropWhile (fun b => b != Separator),
      out1 ++ (c :: rest).takeWhile (fun b => b != Separator), dotdot)

/-- The main loop of `Clean`, `for r < n { ... }`. Every iteration reads at least one byte,
so a fuel of `len(path)` is enough. Returns the final buffer and `dotdot`. -/
def cleanLoop (rooted : Bool) : Nat → GoString → GoString → Nat → GoString × Nat
  | 0, _, out, dotdot => (out, dotdot)
  | _ + 1, [], out, dotdot => (out, dotdot)
  | fuel + 1, c :: rest, out, dotdot =>
    let s := cleanStep rooted c rest out dotdot
    cleanLoop rooted fuel s.1 s.2.1 s.2.2

/-- The buffer `Clean` has built when its loop ends, before an empty result is turned
into `"."`. -/
def cleanBuf (path : GoString) : GoString :=
  match path with
  | [] => []
  | c :: rest =>
    if c = Separator then (cleanLoop true rest.length rest [Separator] 1).1
    else (cleanLoop false (c :: rest).length (c :: rest) [] 0).1

/-- The model of `filepath.Clean`: the shortest path name equivalent to `path` by purely
lexical processing. -/
def Clean (path : GoString) : GoString :=
  if cleanBuf path = [] then [Dot] else cleanBuf path

/-- The model of `strings.Join(elem, "/")`. -/
def joinSep : List GoString → GoString
  | [] => []
  | [e] => e
  | e :: rest => e ++ Separator :: joinSep rest

/-- The model of `filepath.Join`: leading empty elements are ignored, the rest is joined with
separators and cleaned; all elements empty gives the empty string. -/
def Join : List GoString → GoString
  | [] => []
  | e :: rest => if e = [] then Join rest else Clean (joinSep (e :: rest))

/-- The model of `filepath.Dir`: all but the last element of `path`, cleaned. -/
def Dir (path : GoString) : GoString :=
  Clean (path.reverse.dropWhile (fun b => b != Separator)).reverse

/-- The model of `filepath.Base`: the last element of `path`, trailing separators removed;
`"."` for the empty path and `"/"` for a path of separators only. -/
def Base (path : GoString) : GoString :=
  if path = [] then [Dot]
  else
    let p := path.reverse.dropWhile (fun b => b == Separator)
    let e := (p.takeWhile (fun b => b != Separator)).reverse
    if e = [] then [Separator] else e

end filepath

/-! ## net/url -/

namespace url

/-- The byte `'%'`. -/
def Percent : Byte := 37

/-- The model of `ishex`: `0-9`, `a-f` or `A-F`. -/
def ishex (c : Byte) : Bool :=
  (48 ≤ c.val && c.val ≤ 57) || (97 ≤ c.val && c.val ≤ 102) || (65 ≤ c.val && c.val ≤ 70)

/-- The model of `unhex`: the value of a hexadecimal digit. -/
def unhex (c : Byte) : Byte :=
  if 48 ≤ c.val ∧ c.val ≤ 57 then c - 48
  else if 97 ≤ c.val ∧ c.val ≤ 102 then c - 97 + 10
  else if 65 ≤ c.val ∧ c.val ≤ 70 then c - 65 + 10
  else 0

/-- The first loop of `unescape` in mode `encodePathSegment`: the first `%` that is not
followed by two hexadecimal digits, as the `EscapeError` it is reported with (`s[i:i+3]`,
shorter at the end of the string); `none` when every escape is well formed. -/
def badEscape : GoString → Option GoString
  | [] => none
  | c :: rest =>
    if c = Percent then
      match rest with
      | h1 :: h2 :: rest2 =>
        if ishex h1 && ishex h2 then badEscape rest2 else some [c, h1, h2]
      | _ => some (c :: rest)
    else badEscape rest

/-- The second loop of `unescape` in mode `encodePathSegment`: every `%XY` becomes the byte
`unhex(X)<<4 | unhex(Y)`, every other byte (a `+` as well) is copied. -/
def decode : GoString → GoString
  | [] => []
  | c :: rest =>
    if c = Percent then
      match rest with
      | h1 :: h2 :: rest2 => (unhex h1 <<< (4 : Byte) ||| unhex h2) :: decode rest2
      | _ => []
    else c :: decode rest

/-- The model of `url.PathUnescape`. -/
def PathUnescape (s : GoString) : Except GoString GoString :=
  match badEscape s with
  | some e => .error e
  | none => .ok (decode s)

end url

/-! ## os: the file system -/

namespace os

/-- What a path names: a regular file with its content, or a directory. -/
inductive Node where
  | file (data : GoString)
  | dir
deriving DecidableEq

/-- The state of the file system: the node, if any, at every path. -/
abbrev FS := GoString → Option Node

/-- The file system with nothing in it. -/
def FS.empty : FS := fun _ => none

/-- The file system with node `n` at `path` and `fs` everywhere else. -/
def FS.set (fs : FS) (path : GoString) (n : Node) : FS :=
  fun q => if q = path then some n else fs q

/-- Error numbers of the system calls. -/
inductive Errno where
  | EACCES
  | EEXIST
  | ENOENT
  | ENOTDIR
  | EISDIR
  | ENOSPC
deriving DecidableEq

/-- What the medium refuses during one request: directories it will not create, files it will
not open for writing, and how many bytes it can still take (`none`: no limit). -/
structure Faults where
  mkdirDenied : GoString → Bool
  openDenied : GoString → Bool
  space : Option Nat

/-- A medium that refuses nothing. -/
def Faults.none : Faults := ⟨fun _ => false, fun _ => false, Option.none⟩

/-- A chain of `..` elements: `..`, `../..`, and so on. -/
def isDotDots : GoString → Bool
  | a :: b :: rest =>
    a == filepath.Dot && b == filepath.Dot &&
      (match rest with
       | [] => true
       | c :: rest2 => c == filepath.Separator && isDotDots rest2)
  | _ => false

/-- The model of `os.Stat`: the empty path names nothing; the current directory, the root
and chains of `..` are directories; every other path names what the file system holds
there. -/
def Stat (fs : FS) (path : GoString) : Option Node :=
  if path = [] then Option.none
  else if path = [filepath.Dot] ∨ path = [filepath.Separator] ∨ isDotDots path then
    some Node.dir
  else fs path

/-- The model of `os.ReadFile`: the content of a regular file; `none` stands for any error
(nothing there, or a directory). -/
def ReadFile (fs : FS) (name : GoString) : Option GoString :=
  match Stat fs name with
  | some (Node.file data) => some data
  | _ => Option.none

/-- The model of `os.Mkdir`: creates one directory; the path must not be empty, it must be
free and its parent a directory. -/
def Mkdir (fl : Faults) (fs : FS) (path : GoString) : FS × Option Errno :=
  if path = [] then (fs, some Errno.ENOENT)
  else if fl.mkdirDenied path then (fs, some Errno.EACCES)
  else if (Stat fs path).isSome then (fs, some Errno.EEXIST)
  else if Stat fs (filepath.Dir path) ≠ some Node.dir then (fs, some Errno.ENOENT)
  else (fs.set path Node.dir, Option.none)

/-- The parent that `os.MkdirAll` recurses on: trailing separators and the last element are
removed, and the separator before it (`path[:i]`). -/
def parentOf (path : GoString) : GoString :=
  (((path.reverse.dropWhile (fun b => b == filepath.Separator)).dropWhile
    (fun b => b != filepath.Separator)).tail).reverse

/-- The recursion of `os.MkdirAll`; the parent is shorter than the path, so a fuel of
`len(path) + 1` is enough. -/
def MkdirAllAux (fl : Faults) : Nat → FS → GoString → FS × Option Errno
  | 0, fs, _ => (fs, some Errno.ENOENT)
  | fuel + 1, fs, path =>
    -- Fast path: if we can tell whether path is a directory or file, stop.
    match Stat fs path with
    | some Node.dir => (fs, Option.none)
    | some (Node.file _) => (fs, some Errno.ENOTDIR)
    | Option.none =>
      -- Slow path: make sure parent exists and then call Mkdir for path.
      let parent := parentOf path
      let r := if 0 < parent.length then MkdirAllAux fl fuel fs parent else (fs, Option.none)
      match r.2 with
      | some e => (r.1, some e)
      | Option.none =>
        let m := Mkdir fl r.1 path
        match m.2 with
        | Option.none => (m.1, Option.none)
        | some e => if Stat m.1 path = some Node.dir then (m.1, Option.none) else (m.1, some e)

/-- The model of `os.MkdirAll`: creates `path` and every missing parent; the file system it
leaves and the error, if any. -/
def MkdirAll (fl : Faults) (fs : FS) (path : GoString) : FS × Option Errno :=
  MkdirAllAux fl (path.length + 1) fs path

/-- The model of `os.WriteFile` (open with `O_WRONLY|O_CREATE|O_TRUNC`, write, close): the
open fails on the empty name, on a directory, under a missing parent or when refused, and
leaves the file system as it was; a write that runs out of space leaves the truncated file
and reports an error. -/
def WriteFile (fl : Faults) (fs : FS) (name : GoString) (data : GoString) : FS × Option Errno :=
  if name = [] then (fs, some Errno.ENOENT)
  else if fl.openDenied name then (fs, some Errno.EACCES)
  else if Stat fs name = some Node.dir then (fs, some Errno.EISDIR)
  else if Stat fs (filepath.Dir name) ≠ some Node.dir then (fs, some Errno.ENOENT)
  else
    match fl.space with
    | some n =>
      if n < data.length then (fs.set name (Node.file (data.take n)), some Errno.ENOSPC)
      else (fs.set name (Node.file data), Option.none)
    | Option.none => (fs.set name (Node.file data), Option.none)

end os

/-! ## net/http -/

namespace http

/-- The model of `http.Header`, a `map[string][]string`. -/
abbrev Header := GoString → Option (List GoString)

/-- The model of `Header.Set`. -/
def Header.Set (h : Header) (key value : GoString) : Header :=
  fun q => if q = key then some [value] else h q

/-- The model of `Header.Del`. -/
def Header.Del (h : Header) (key : GoString) : Header :=
  fun q => if q = key then none else h q

/-- The loop `for k, v := range src { h[k] = v }`. -/
def Header.assignAll (h src : Header) : Header :=
  fun q => match src q with
    | some v => some v
    | none => h q

/-- The model of an `http.ResponseWriter`: the header map, the status of the first
`WriteHeader` (`none` before it) and the body written so far. -/
structure ResponseWriter where
  header : Header
  status : Option Int
  body : GoString

/-- The writer a handler is called with. -/
def ResponseWriter.fresh : ResponseWriter := ⟨fun _ => none, none, []⟩

/-- The model of `ResponseWriter.WriteHeader`: only the first call counts. -/
def ResponseWriter.WriteHeader (w : ResponseWriter) (statusCode : Int) : ResponseWriter :=
  if w.status.isSome then w else { w with status := some statusCode }

/-- The model of `ResponseWriter.Write`: an implicit `WriteHeader(200)` when no status was
written, then the bytes. -/
def ResponseWriter.Write (w : ResponseWriter) (data : GoString) : ResponseWriter :=
  let w1 := w.WriteHeader 200
  { w1 with body := w1.body ++ data }

/-- The model of `http.Error`: a plain-text reply with the message and a newline. -/
def Error (w : ResponseWriter) (error : GoString) (code : Int) : ResponseWriter :=
  let h := ((w.header.Del (str "Content-Length")).Set (str "Content-Type")
    (str "text/plain; charset=utf-8")).Set (str "X-Content-Type-Options") (str "nosniff")
  ({ w with header := h }.WriteHeader code).Write (error ++ str "\n")

/-- The fields of `*http.Request` the program reads: `r.Method`, `r.URL.Path` (the path as
`net/http` hands it to the handler) and `r.URL.RawQuery`. -/
structure Request where
  Method : GoString
  Path : GoString
  RawQuery : GoString

/-- The model of an `*http.Response` as the program uses it: status, headers, and what
`io.ReadAll(resp.Body)` gives (`none`: the read fails). -/
structure Response where
  StatusCode : Int
  Header : Header
  Body : Option GoString

/-- What the upstream does with one GET: it answers with a response, or with a redirect
(a 3xx status with a `Location`, here the location as the client resolves it). -/
inductive Reply where
  | response (resp : Response)
  | redirect (location : GoString)

/-- The model of `stringContainsCTLByte` of `net/url`: some byte is an ASCII control
character (below `0x20`, or `0x7f`). `url.Parse` fails on such a string with "invalid control
character in URL". -/
def stringContainsCTLByte (s : GoString) : Bool :=
  s.any (fun b => decide (b.val < 32) || decide (b.val = 127))

/-- When the client sends nothing for a URL string: the string has a control character, or
the client rejects it for another reason (`rejects`: it does not parse otherwise, its scheme
is not supported, it has no host). -/
def refused (rejects : GoString → Bool) (url : GoString) : Bool :=
  stringContainsCTLByte url || rejects url

/-- The requests of `http.Get`, with `n` requests still allowed: the GETs sent, in order, and
the result (`none`: an error). A refused URL sends nothing; no answer from the upstream
(`server` gives `none`) is an error; a redirect is followed with a GET for its location. -/
def getLoop (rejects : GoString → Bool) (server : GoString → Option Reply) :
    Nat → GoString → List GoString × Option Response
  | 0, _ => ([], none)
  | n + 1, url =>
    if refused rejects url then ([], none)
    else
      match server url with
      | none => ([url], none)
      | some (Reply.response resp) => ([url], some resp)
      | some (Reply.redirect location) =>
        let rest := getLoop rejects server n location
        (url :: rest.1, rest.2)

/-- The model of `http.Get(url)` with the default client, which stops after 10 requests
("stopped after 10 redirects"): the GETs it sends and what it returns. -/
def Get (rejects : GoString → Bool) (server : GoString → Option Reply) (url : GoString) :
    List GoString × Option Response :=
  getLoop rejects server 10 url

/-- The model of `http.ServeContent(w, req, name, modtime, content)`. It first sets
`Last-Modified` and then evaluates the preconditions of the request, reading `req.Header`:
with a nil request (`none`) that is a nil-pointer dereference, a panic before any status or
body is written. With a request (no conditional or range header is modelled) it replies 200
with the content, which is held back for a `HEAD` request. -/
def ServeContent (w : ResponseWriter) (req : Option Request) (_name : GoString)
    (modtime : GoString) (content : GoString) : Except Panic ResponseWriter :=
  let w1 := { w with header := w.header.Set (str "Last-Modified") modtime }
  match req with
  | none => .error Panic.nilDereference
  | some r =>
    let w2 := w1.WriteHeader 200
    if r.Method = str "HEAD" then .ok w2 else .ok (w2.Write content)

end http

/-! ## The program -/

/-- The outside world during one request: what the upstream answers to a GET for a URL
(`none`: no answer), the URL strings the HTTP client rejects, the formatted `time.Now()`, and
what the storage medium refuses. -/
structure Env where
  server : GoString → Option http.Reply
  rejects : GoString → Bool
  now : GoString
  faults : os.Faults

/-- What `http.Get(url)` returns in this world (`none`: the call returns an error). -/
def Env.get (env : Env) (url : GoString) : Option http.Response :=
  (http.Get env.rejects env.server url).2

/-- The GETs that `http.Get(url)` sends in this world. -/
def Env.sent (env : Env) (url : GoString) : List GoString :=
  (http.Get env.rejects env.server url).1

/-- The state that requests share: the file system, the URLs `http.Get` was called with so
far, and the URLs of the GETs sent to the upstream so far. -/
structure World where
  fs : os.FS
  calls : List GoString
  sent : List GoString

/-- What the client gets: the response the handler wrote, or nothing when the handler
panicked. -/
inductive Outcome where
  | response (w : http.ResponseWriter)
  | panic (p : Panic)

/-- The type `FluxCache` of the program. -/
structure FluxCache where
  cacheRoot : GoString

/-- The function `NewFluxCache`: the result of `os.MkdirAll(root, 0755)` is ignored. -/
def NewFluxCache (fl : os.Faults) (fs : os.FS) (root : GoString) : FluxCache × os.FS :=
  (⟨root⟩, (os.MkdirAll fl fs root).1)

/-- The method `cachePath`: `filepath.Join(c.cacheRoot, hash[:2], hash[2:4], hash)` for the
hexadecimal SHA-256 `hash` of the module path. -/
def FluxCache.cachePath (c : FluxCache) (modulePath : GoString) : Except Panic GoString :=
  let h := sha256.Sum256 modulePath
  let hash := hex.EncodeToString h
  match slice hash 0 2 with
  | .error p => .error p
  | .ok d1 =>
    match slice hash 2 4 with
    | .error p => .error p
    | .ok d2 => .ok (filepath.Join [c.cacheRoot, d1, d2, hash])

/-- The lookup of `serveFromCache`: `cachePath := c.cachePath(modulePath)` and
`os.ReadFile(cachePath)`; `some data` when the read succeeds, `none` when it fails. -/
def FluxCache.read (c : FluxCache) (fs : os.FS) (modulePath : GoString) :
    Except Panic (Option GoString) :=
  match c.cachePath modulePath with
  | .error p => .error p
  | .ok cachePath => .ok (os.ReadFile fs cachePath)

/-- The method `serveFromCache`: on a successful read it calls
`http.ServeContent(w, nil, filepath.Base(modulePath), time.Now(), ...)` over the bytes read
and returns true; it returns false when the read fails. -/
def FluxCache.serveFromCache (c : FluxCache) (env : Env) (fs : os.FS)
    (w : http.ResponseWriter) (modulePath : GoString) : Except Panic (Bool × http.ResponseWriter) :=
  match c.read fs modulePath with
  | .error p => .error p
  | .ok (some data) =>
    match http.ServeContent w none (filepath.Base modulePath) env.now data with
    | .error p => .error p
    | .ok w1 => .ok (true, w1)
  | .ok none => .ok (false, w)

/-- The cache write of `fetchAndCache`: `os.MkdirAll(filepath.Dir(cachePath), 0755)` and then
`os.WriteFile(cachePath, data, 0644)`, the result of the first ignored; the file system left
and the error of the write, which `fetchAndCache` ignores as well. -/
def persist (fl : os.Faults) (fs : os.FS) (cachePath : GoString) (data : GoString) :
    os.FS × Option os.Errno :=
  os.WriteFile fl (os.MkdirAll fl fs (filepath.Dir cachePath)).1 cachePath data

/-- The URL of the upstream request: `*upstream + r.URL.Path + "?" + r.URL.RawQuery`. -/
def upstreamURL (upstream : GoString) (r : http.Request) : GoString :=
  upstream ++ r.Path ++ str "?" ++ r.RawQuery

/-- The cache write of `fetchAndCache` from the module path: `cachePath :=
c.cachePath(modulePath)`, `os.MkdirAll(filepath.Dir(cachePath), 0755)` and
`os.WriteFile(cachePath, data, 0644)`. -/
def FluxCache.write (c : FluxCache) (fl : os.Faults) (fs : os.FS) (modulePath : GoString)
    (data : GoString) : Except Panic (os.FS × Option os.Errno) :=
  match c.cachePath modulePath with
  | .error p => .error p
  | .ok cachePath => .ok (persist fl fs cachePath data)

/-- The method `fetchAndCache`, with the flag `upstream` as a parameter. -/
def FluxCache.fetchAndCache (upstream : GoString) (c : FluxCache) (env : Env)
    (w : http.ResponseWriter) (r : http.Request) (modulePath : GoString) (σ : World) :
    Outcome × World :=
  let σ1 : World := { σ with
    calls := σ.calls ++ [upstreamURL upstream r]
    sent := σ.sent ++ env.sent (upstreamURL upstream r) }
  match env.get (upstreamURL upstream r) with
  | none => (Outcome.response (http.Error w (str "upstream error") 502), σ1)
  | some resp =>
    if resp.StatusCode ≠ 200 then
      (Outcome.response (http.Error w (str "upstream error") 502), σ1)
    else
      match resp.Body with
      | none => (Outcome.response (http.Error w (str "read error") 500), σ1)
      | some data =>
        -- Lưu cache
        match c.write env.faults σ1.fs modulePath data with
        | .error p => (Outcome.panic p, σ1)
        | .ok stored =>
          let fs2 := stored.1
          -- Serve client
          let w1 := { w with header := w.header.assignAll resp.Header }
          let w2 := w1.WriteHeader resp.StatusCode
          (Outcome.response (w2.Write data), { σ1 with fs := fs2 })

/-- The statement `if strings.HasPrefix(path, "/") { path = path[1:] }` of the handler. -/
def trimSlash (path : GoString) : GoString :=
  match path with
  | [] => []
  | c :: rest => if c = filepath.Separator then rest else c :: rest

/-- The handler that `main` registers for `"/"`, with the flag `upstream` and the cache as
parameters. -/
def handler (upstream : GoString) (cache : FluxCache) (env : Env) (r : http.Request)
    (σ : World) : Outcome × World :=
  let w := http.ResponseWriter.fresh
  -- Decode module path (Go module proxy format)
  match url.PathUnescape (trimSlash r.Path) with
  | .error _ => (Outcome.response (http.Error w (str "bad path") 400), σ)
  | .ok modulePath =>
    -- Cache hit?
    match cache.serveFromCache env σ.fs w modulePath with
    | .error p => (Outcome.panic p, σ)
    | .ok (true, w1) => (Outcome.response w1, σ)
    | .ok (false, w1) =>
      -- Cache miss → fetch upstream
      cache.fetchAndCache upstream env w1 r modulePath σ

/-! ## The specification's reading of a well-formed path -/

/-- The specification's notion of a validly percent-encoded path: every `%` is followed by
two hexadecimal digits. -/
def validEscapes (s : GoString) : Prop :=
  ∀ i, s[i]? = some url.Percent →
    ∃ h1 h2, s[i + 1]? = some h1 ∧ s[i + 2]? = some h2 ∧ url.ishex h1 = true ∧ url.ishex h2 = true

/-- The hexadecimal SHA-256 of a module path, the `hash` of `cachePath`. -/
def hashOf (modulePath : GoString) : GoString :=
  hex.EncodeToString (sha256.Sum256 modulePath)

/-- The file system `fs1` holds what `fs` holds, except for directories created where `fs`
had nothing. -/
def addsDirsOnly (fs fs1 : os.FS) : Prop :=
  ∀ q, fs1 q = fs q ∨ (fs q = none ∧ fs1 q = some os.Node.dir)

/-- The state of the loop of `Clean` on a rooted path: `dotdot` is 1 and the buffer starts
with the separator. -/
def rootedInv (out : GoString) (dotdot : Nat) : Prop :=
  dotdot = 1 ∧ out[0]? = some filepath.Separator

/-- The state of the loop of `Clean` on a path that is not rooted: `dotdot` is never 1, the
buffer does not start with a separator, and it neither is `.` nor starts with `./`. -/
def relativeInv (out : GoString) (dotdot : Nat) : Prop :=
  (dotdot = 0 ∨ 2 ≤ dotdot) ∧ out[0]? ≠ some filepath.Separator ∧
    ¬ (out[0]? = some filepath.Dot ∧ (out.length = 1 ∨ out[1]? = some filepath.Separator))

/-- A path element without separator and without dot, and not empty. -/
def plainElem (seg : GoString) : Prop :=
  seg ≠ [] ∧ ∀ b ∈ seg, b ≠ filepath.Separator ∧ b ≠ filepath.Dot

/-- What stands before a name joined under the clean directory `dir`: nothing under `.`,
the separator under `/`, and `dir` with a separator otherwise. -/
def dirPrefix (dir : GoString) : GoString :=
  if dir = [filepath.Dot] then []
  else if dir = [filepath.Separator] then [filepath.Separator]
  else dir ++ [filepath.Separator]

/-- The location as the specification writes it, `<root>/<hex[0:2]>/<hex[2:4]>/<hex>`, the
strings put together with separators between them. -/
def specLocation (root modulePath : GoString) : GoString :=
  root ++ [filepath.Separator] ++ (hashOf modulePath).take 2 ++ [filepath.Separator] ++
    ((hashOf modulePath).take 4).drop 2 ++ [filepath.Separator] ++ hashOf modulePath

/-! ## Concrete scenarios -/

/-- The default of the flag `upstream`. -/
def goProxy : GoString := str "https://proxy.golang.org"

/-- The cache under the default of the flag `cache`. -/
def defaultCache : FluxCache := ⟨str "./fluxcache"⟩

/-- The module path of the specification's scenario. -/
def infoPath : GoString := str "github.com/foo/bar@v1.0.0.info"

/-- The body of the specification's scenario. -/
def infoBody : GoString := str "\x7b\"Version\":\"v1.0.0\"\x7d"

/-- Where the default cache keeps `infoPath`. -/
def infoLoc : GoString :=
  str "fluxcache/f1/8e/f18e1ba2599ed8b49fcac20b0e8225a3a4a1d7f4dd445f0dfdec042f4c319a6b"

/-- A request for `infoPath` with the given method and raw query. -/
def infoRequest (method query : GoString) : http.Request :=
  ⟨method, str "/github.com/foo/bar@v1.0.0.info", query⟩

/-- Upstream headers of the scenario. -/
def jsonHeader : http.Header :=
  fun k => if k = str "Content-Type" then some [str "application/json"] else none

/-- An upstream that answers every URL with the given status and the scenario's body, on a
medium with the given faults. -/
def upstreamAnswering (code : Int) (fl : os.Faults) : Env :=
  ⟨fun _ => some (http.Reply.response ⟨code, jsonHeader, some infoBody⟩), fun _ => false,
    str "Wed, 04 Nov 2026 12:00:00 GMT", fl⟩

/-- An upstream that answers the GET for `infoPath` at the default upstream base with a
redirect to a mirror, and every other GET with 200 and the scenario's body. -/
def upstreamRedirecting : Env :=
  ⟨fun u =>
      if u = str "https://proxy.golang.org/github.com/foo/bar@v1.0.0.info?" then
        some (http.Reply.redirect (str "https://mirror.example/github.com/foo/bar@v1.0.0.info"))
      else some (http.Reply.response ⟨200, jsonHeader, some infoBody⟩),
    fun _ => false, str "Wed, 04 Nov 2026 12:00:00 GMT", os.Faults.none⟩

/-- A request whose path, as the handler receives it, holds a line feed: on the wire,
`GET /a%0Ab`. -/
def lineFeedRequest : http.Request :=
  ⟨str "GET", [47, 97, 10, 98], []⟩

/-- A medium on which no file can be opened for writing. -/
def readOnly : os.Faults := ⟨fun _ => false, fun _ => true, none⟩

/-- The world at start: nothing stored, no upstream call made. -/
def emptyWorld : World := ⟨os.FS.empty, [], []⟩

/-! ## Lemmas: the cache key -/

theorem Sum256_length (data : List Byte) : (sha256.Sum256 data).length = 32 := by
  simp [sha256.Sum256, sha256.putUint32]

theorem EncodeToString_length (l : List Byte) : (hex.EncodeToString l).length = 2 * l.length := by
  induction l with
  | nil => rfl
  | cons v rest ih => simp [hex.EncodeToString, ih]; omega

set_option maxRecDepth 1000000 in
theorem hextable_lower (v : Byte) :
    isLowerHex (hex.hextable.getD (v.val >>> 4) 0) = true ∧
    isLowerHex (hex.hextable.getD (v.val &&& 0x0f) 0) = true := by
  revert v
  decide

theorem EncodeToString_lower (l : List Byte) : ∀ c ∈ hex.EncodeToString l, isLowerHex c = true := by
  induction l with
  | nil => intro c hc; simp [hex.EncodeToString] at hc
  | cons v rest ih =>
    intro c hc
    simp only [hex.EncodeToString, List.mem_cons] at hc
    rcases hc with h | h | h
    · rw [h]; exact (hextable_lower v).1
    · rw [h]; exact (hextable_lower v).2
    · exact ih c h

theorem hashOf_length (p : GoString) : (hashOf p).length = 64 := by
  simp [hashOf, EncodeToString_length, Sum256_length]

theorem cachePath_eq (c : FluxCache) (p : GoString) :
    c.cachePath p = .ok (filepath.Join
      [c.cacheRoot, (hashOf p).take 2, ((hashOf p).take 4).drop 2, hashOf p]) := by
  have h := hashOf_length p
  unfold hashOf at h
  simp [FluxCache.cachePath, slice, hashOf, h]

/-! ## Lemmas: the file system -/

theorem ReadFile_set_dir (fs : os.FS) (path q : GoString) (h : os.Stat fs path = none) :
    os.ReadFile (fs.set path os.Node.dir) q = os.ReadFile fs q := by
  unfold os.ReadFile os.Stat os.FS.set
  unfold os.Stat at h
  by_cases hq : q = path
  · subst hq
    split_ifs at h ⊢ <;> simp_all
  · simp [hq]

theorem Mkdir_ReadFile (fl : os.Faults) (fs : os.FS) (path q : GoString) :
    os.ReadFile (os.Mkdir fl fs path).1 q = os.ReadFile fs q := by
  unfold os.Mkdir
  split_ifs with h0 h1 h2 h3
  · rfl
  · rfl
  · rfl
  · rfl
  · exact ReadFile_set_dir fs path q (by simpa using h2)

theorem MkdirAllAux_ReadFile (fl : os.Faults) (fuel : Nat) :
    ∀ (fs : os.FS) (path q : GoString),
      os.ReadFile (os.MkdirAllAux fl fuel fs path).1 q = os.ReadFile fs q := by
  induction fuel with
  | zero => intro fs path q; rfl
  | succ n ih =>
    intro fs path q
    have hr : os.ReadFile
        (if 0 < (os.parentOf path).length then os.MkdirAllAux fl n fs (os.parentOf path)
          else (fs, Option.none)).1 q = os.ReadFile fs q := by
      split_ifs
      · exact ih fs _ q
      · rfl
    simp only [os.MkdirAllAux]
    split
    · rfl
    · rfl
    · generalize (if 0 < (os.parentOf path).length then
        os.MkdirAllAux fl n fs (os.parentOf path) else (fs, Option.none)) = r at hr
      split
      · exact hr
      · split
        · rw [Mkdir_ReadFile]; exact hr
        · split_ifs <;> (rw [Mkdir_ReadFile]; exact hr)

theorem MkdirAll_ReadFile (fl : os.Faults) (fs : os.FS) (path q : GoString) :
    os.ReadFile (os.MkdirAll fl fs path).1 q = os.ReadFile fs q :=
  MkdirAllAux_ReadFile fl _ fs path q

theorem ReadFile_set_other (fs : os.FS) (name q : GoString) (n : os.Node) (h : q ≠ name) :
    os.ReadFile (fs.set name n) q = os.ReadFile fs q := by
  simp [os.ReadFile, os.Stat, os.FS.set, h]

theorem WriteFile_ReadFile_other (fl : os.Faults) (fs : os.FS) (name data q : GoString)
    (h : q ≠ name) : os.ReadFile (os.WriteFile fl fs name data).1 q = os.ReadFile fs q := by
  unfold os.WriteFile
  split_ifs
  · rfl
  · rfl
  · rfl
  · rfl
  · split
    · split_ifs <;> exact ReadFile_set_other fs name q _ h
    · exact ReadFile_set_other fs name q _ h

theorem ReadFile_set_file (fs : os.FS) (name data : GoString) (hne : name ≠ [])
    (h : os.Stat fs name ≠ some os.Node.dir) :
    os.ReadFile (fs.set name (os.Node.file data)) name = some data := by
  unfold os.ReadFile os.Stat os.FS.set
  unfold os.Stat at h
  split_ifs at h ⊢ <;> simp_all

theorem WriteFile_ok_ReadFile (fl : os.Faults) (fs : os.FS) (name data : GoString)
    (h : (os.WriteFile fl fs name data).2 = none) :
    os.ReadFile (os.WriteFile fl fs name data).1 name = some data := by
  unfold os.WriteFile at h ⊢
  by_cases h0 : name = []
  · simp [h0] at h
  by_cases h1 : fl.openDenied name = true
  · simp [h0, h1] at h
  by_cases h2 : os.Stat fs name = some os.Node.dir
  · simp [h0, h1, h2] at h
  by_cases h3 : os.Stat fs (filepath.Dir name) = some os.Node.dir
  · simp only [h0, h1, h2, h3] at h ⊢
    cases hs : fl.space with
    | none => simpa [hs] using ReadFile_set_file fs name data h0 h2
    | some n =>
      simp only [hs] at h
      by_cases hn : n < data.length
      · simp [hn] at h
      · simpa [hs, hn] using ReadFile_set_file fs name data h0 h2
  · simp [h0, h1, h2, h3] at h

theorem persist_ReadFile_other (fl : os.Faults) (fs : os.FS) (loc data q : GoString)
    (h : q ≠ loc) : os.ReadFile (persist fl fs loc data).1 q = os.ReadFile fs q := by
  unfold persist
  rw [WriteFile_ReadFile_other fl _ loc data q h, MkdirAll_ReadFile]

/-! ## Lemmas: the handler, case by case -/

theorem handler_bad (upstream : GoString) (cache : FluxCache) (env : Env) (r : http.Request)
    (σ : World) (e : GoString) (h : url.badEscape (trimSlash r.Path) = some e) :
    handler upstream cache env r σ =
      (Outcome.response (http.Error http.ResponseWriter.fresh (str "bad path") 400), σ) := by
  simp [handler, url.PathUnescape, h]

theorem PathUnescape_ok {s p : GoString} (h : url.PathUnescape s = .ok p) :
    url.badEscape s = none ∧ p = url.decode s := by
  unfold url.PathUnescape at h
  split at h
  · simp at h
  · rename_i hb
    simp at h
    exact ⟨hb, h.symm⟩

theorem handler_hit (upstream : GoString) (cache : FluxCache) (env : Env) (r : http.Request)
    (σ : World) (p loc data : GoString)
    (hp : url.PathUnescape (trimSlash r.Path) = .ok p)
    (hloc : cache.cachePath p = .ok loc)
    (hhit : os.ReadFile σ.fs loc = some data) :
    handler upstream cache env r σ = (Outcome.panic Panic.nilDereference, σ) := by
  simp [handler, hp, FluxCache.serveFromCache, FluxCache.read, hloc, hhit, http.ServeContent]

theorem handler_miss (upstream : GoString) (cache : FluxCache) (env : Env) (r : http.Request)
    (σ : World) (p loc : GoString)
    (hp : url.PathUnescape (trimSlash r.Path) = .ok p)
    (hloc : cache.cachePath p = .ok loc)
    (hmiss : os.ReadFile σ.fs loc = none) :
    handler upstream cache env r σ =
      cache.fetchAndCache upstream env http.ResponseWriter.fresh r p σ := by
  simp [handler, hp, FluxCache.serveFromCache, FluxCache.read, hloc, hmiss]

theorem fetchAndCache_ok (upstream : GoString) (cache : FluxCache) (env : Env)
    (w : http.ResponseWriter) (r : http.Request) (σ : World) (p loc b : GoString)
    (resp : http.Response)
    (hloc : cache.cachePath p = .ok loc)
    (hget : env.get (upstreamURL upstream r) = some resp)
    (hstatus : resp.StatusCode = 200) (hbody : resp.Body = some b) :
    cache.fetchAndCache upstream env w r p σ =
      (Outcome.response
        (({ w with header := w.header.assignAll resp.Header }.WriteHeader 200).Write b),
       { fs := (persist env.faults σ.fs loc b).1,
         calls := σ.calls ++ [upstreamURL upstream r],
         sent := σ.sent ++ env.sent (upstreamURL upstream r) }) := by
  simp [FluxCache.fetchAndCache, FluxCache.write, hget, hstatus, hbody, hloc]

theorem fetchAndCache_fail (upstream : GoString) (cache : FluxCache) (env : Env)
    (w : http.ResponseWriter) (r : http.Request) (σ : World) (p : GoString)
    (hfail : env.get (upstreamURL upstream r) = none ∨
      ∃ resp, env.get (upstreamURL upstream r) = some resp ∧ resp.StatusCode ≠ 200) :
    cache.fetchAndCache upstream env w r p σ =
      (Outcome.response (http.Error w (str "upstream error") 502),
       { fs := σ.fs, calls := σ.calls ++ [upstreamURL upstream r],
         sent := σ.sent ++ env.sent (upstreamURL upstream r) }) := by
  rcases hfail with h | ⟨resp, h, hs⟩
  · simp [FluxCache.fetchAndCache, h]
  · simp [FluxCache.fetchAndCache, h, hs]

theorem fetchAndCache_calls (upstream : GoString) (cache : FluxCache) (env : Env)
    (w : http.ResponseWriter) (r : http.Request) (σ : World) (p : GoString) :
    (cache.fetchAndCache upstream env w r p σ).2.calls =
      σ.calls ++ [upstreamURL upstream r] := by
  unfold FluxCache.fetchAndCache
  simp only
  split
  · rfl
  · split_ifs
    · rfl
    · split
      · rfl
      · split <;> rfl

theorem fetchAndCache_sent (upstream : GoString) (cache : FluxCache) (env : Env)
    (w : http.ResponseWriter) (r : http.Request) (σ : World) (p : GoString) :
    (cache.fetchAndCache upstream env w r p σ).2.sent =
      σ.sent ++ env.sent (upstreamURL upstream r) := by
  unfold FluxCache.fetchAndCache
  simp only
  split
  · rfl
  · split_ifs
    · rfl
    · split
      · rfl
      · split <;> rfl

theorem Error_status (code : Int) (msg : GoString) :
    (http.Error http.ResponseWriter.fresh msg code).status = some code := by
  simp [http.Error, http.ResponseWriter.Write, http.ResponseWriter.WriteHeader,
    http.ResponseWriter.fresh]

theorem Error_body (code : Int) (msg : GoString) :
    (http.Error http.ResponseWriter.fresh msg code).body = msg ++ str "\n" := by
  simp [http.Error, http.ResponseWriter.Write, http.ResponseWriter.WriteHeader,
    http.ResponseWriter.fresh]

theorem fetchAndCache_ReadFile_other (upstream : GoString) (cache : FluxCache) (env : Env)
    (w : http.ResponseWriter) (r : http.Request) (σ : World) (p loc q : GoString)
    (hloc : cache.cachePath p = .ok loc) (hq : q ≠ loc) :
    os.ReadFile (cache.fetchAndCache upstream env w r p σ).2.fs q = os.ReadFile σ.fs q := by
  unfold FluxCache.fetchAndCache
  simp only [FluxCache.write, hloc]
  split
  · rfl
  · split_ifs
    · rfl
    · split
      · rfl
      · exact persist_ReadFile_other _ _ _ _ _ hq

theorem served_status (h : http.Header) (b : GoString) :
    (({ http.ResponseWriter.fresh with header := h }.WriteHeader 200).Write b).status =
      some 200 := by
  simp [http.ResponseWriter.Write, http.ResponseWriter.WriteHeader, http.ResponseWriter.fresh]

theorem served_body (h : http.Header) (b : GoString) :
    (({ http.ResponseWriter.fresh with header := h }.WriteHeader 200).Write b).body = b := by
  simp [http.ResponseWriter.Write, http.ResponseWriter.WriteHeader, http.ResponseWriter.fresh]

theorem served_header (h : http.Header) (b : GoString) :
    (({ http.ResponseWriter.fresh with header := h }.WriteHeader 200).Write b).header = h := by
  simp [http.ResponseWriter.Write, http.ResponseWriter.WriteHeader, http.ResponseWriter.fresh]

theorem assignAll_fresh (h : http.Header) :
    http.ResponseWriter.fresh.header.assignAll h = h := by
  funext k
  simp only [http.Header.assignAll, http.ResponseWriter.fresh]
  cases h k <;> rfl

theorem addsDirsOnly_refl (fs : os.FS) : addsDirsOnly fs fs := fun _ => Or.inl rfl

theorem addsDirsOnly_trans {fs fs1 fs2 : os.FS} (h1 : addsDirsOnly fs fs1)
    (h2 : addsDirsOnly fs1 fs2) : addsDirsOnly fs fs2 := by
  intro q
  rcases h1 q with a | ⟨a, b⟩ <;> rcases h2 q with c | ⟨c, d⟩
  · exact Or.inl (c.trans a)
  · exact Or.inr ⟨a ▸ c, d⟩
  · exact Or.inr ⟨a, c.trans b⟩
  · rw [b] at c; exact absurd c (by simp)

theorem Mkdir_addsDirsOnly (fl : os.Faults) (fs : os.FS) (path : GoString) :
    addsDirsOnly fs (os.Mkdir fl fs path).1 := by
  unfold os.Mkdir
  split_ifs with h0 h1 h2 h3
  · exact addsDirsOnly_refl fs
  · exact addsDirsOnly_refl fs
  · exact addsDirsOnly_refl fs
  · exact addsDirsOnly_refl fs
  · intro q
    by_cases hq : q = path
    · subst hq
      right
      refine ⟨?_, by simp [os.FS.set]⟩
      unfold os.Stat at h2
      split_ifs at h2
      · simp at h2
      · simpa using h2
    · left
      simp [os.FS.set, hq]

theorem MkdirAllAux_addsDirsOnly (fl : os.Faults) (fuel : Nat) :
    ∀ (fs : os.FS) (path : GoString), addsDirsOnly fs (os.MkdirAllAux fl fuel fs path).1 := by
  induction fuel with
  | zero => intro fs path; exact addsDirsOnly_refl fs
  | succ n ih =>
    intro fs path
    have hr : addsDirsOnly fs
        (if 0 < (os.parentOf path).length then os.MkdirAllAux fl n fs (os.parentOf path)
          else (fs, Option.none)).1 := by
      split_ifs
      · exact ih fs _
      · exact addsDirsOnly_refl fs
    simp only [os.MkdirAllAux]
    split
    · exact addsDirsOnly_refl fs
    · exact addsDirsOnly_refl fs
    · generalize (if 0 < (os.parentOf path).length then
        os.MkdirAllAux fl n fs (os.parentOf path) else (fs, Option.none)) = r at hr
      split
      · exact hr
      · split
        · exact addsDirsOnly_trans hr (Mkdir_addsDirsOnly fl r.1 path)
        · split_ifs <;> exact addsDirsOnly_trans hr (Mkdir_addsDirsOnly fl r.1 path)

theorem WriteFile_other (fl : os.Faults) (fs : os.FS) (name data q : GoString)
    (h : q ≠ name) : (os.WriteFile fl fs name data).1 q = fs q := by
  unfold os.WriteFile
  split_ifs
  · rfl
  · rfl
  · rfl
  · rfl
  · split
    · split_ifs <;> simp [os.FS.set, h]
    · simp [os.FS.set, h]

theorem persist_other (fl : os.Faults) (fs : os.FS) (loc data q : GoString) (h : q ≠ loc) :
    (persist fl fs loc data).1 q = fs q ∨
      (fs q = none ∧ (persist fl fs loc data).1 q = some os.Node.dir) := by
  unfold persist
  rw [WriteFile_other fl _ loc data q h]
  exact MkdirAllAux_addsDirsOnly fl _ fs _ q

theorem fetchAndCache_other (upstream : GoString) (cache : FluxCache) (env : Env)
    (w : http.ResponseWriter) (r : http.Request) (σ : World) (p loc q : GoString)
    (hloc : cache.cachePath p = .ok loc) (hq : q ≠ loc) :
    (cache.fetchAndCache upstream env w r p σ).2.fs q = σ.fs q ∨
      (σ.fs q = none ∧
        (cache.fetchAndCache upstream env w r p σ).2.fs q = some os.Node.dir) := by
  unfold FluxCache.fetchAndCache
  simp only [FluxCache.write, hloc]
  split
  · exact Or.inl rfl
  · split_ifs
    · exact Or.inl rfl
    · split
      · exact Or.inl rfl
      · exact persist_other _ _ _ _ _ hq

/-! ## Lemmas: `http.Get` -/

theorem Get_refused (rejects : GoString → Bool) (server : GoString → Option http.Reply)
    (url : GoString) (h : http.refused rejects url = true) :
    http.Get rejects server url = ([], none) := by
  simp [http.Get, http.getLoop, h]

theorem getLoop_head (rejects : GoString → Bool) (server : GoString → Option http.Reply)
    (n : Nat) (url : GoString) (h : http.refused rejects url = false) :
    (http.getLoop rejects server (n + 1) url).1.head? = some url := by
  simp only [http.getLoop, h]
  cases server url with
  | none => rfl
  | some reply => cases reply <;> rfl

theorem getLoop_length (rejects : GoString → Bool) (server : GoString → Option http.Reply) :
    ∀ (n : Nat) (url : GoString), (http.getLoop rejects server n url).1.length ≤ n := by
  intro n
  induction n with
  | zero => intro url; simp [http.getLoop]
  | succ k ih =>
    intro url
    simp only [http.getLoop]
    split_ifs
    · simp
    · cases hs : server url with
      | none => simp
      | some reply =>
        cases reply with
        | response resp => simp
        | redirect location =>
          have := ih location
          simp only [List.length_cons]
          omega

theorem getLoop_direct (rejects : GoString → Bool) (server : GoString → Option http.Reply)
    (n : Nat) (url : GoString) (h : http.refused rejects url = false)
    (hd : ∀ location, server url ≠ some (http.Reply.redirect location)) :
    (http.getLoop rejects server (n + 1) url).1 = [url] := by
  simp only [http.getLoop, h]
  cases hs : server url with
  | none => rfl
  | some reply =>
    cases reply with
    | response resp => rfl
    | redirect location => exact absurd hs (hd location)

/-! ## Lemmas: percent-escapes -/

theorem ishex_ne_percent {h : Byte} (hh : url.ishex h = true) : h ≠ url.Percent := by
  intro e
  rw [e] at hh
  revert hh
  decide

theorem validEscapes_cons_of_ne {c : Byte} (rest : GoString) (hc : c ≠ url.Percent) :
    validEscapes (c :: rest) ↔ validEscapes rest := by
  constructor
  · intro h i hi
    have := h (i + 1) (by simpa using hi)
    simpa [Nat.add_right_comm] using this
  · intro h i hi
    cases i with
    | zero => simp at hi; exact absurd hi hc
    | succ j =>
      have := h j (by simpa using hi)
      simpa [Nat.add_right_comm] using this

theorem validEscapes_escape (c h1 h2 : Byte) (rest : GoString) (hc : c = url.Percent) :
    validEscapes (c :: h1 :: h2 :: rest) ↔
      (url.ishex h1 = true ∧ url.ishex h2 = true ∧ validEscapes rest) := by
  constructor
  · intro h
    have h0 := h 0 (by simp [hc])
    simp at h0
    refine ⟨h0.1, h0.2, ?_⟩
    intro i hi
    have := h (i + 3) (by simpa using hi)
    simpa [Nat.add_right_comm] using this
  · rintro ⟨hh1, hh2, h⟩ i hi
    match i, hi with
    | 0, _ => simp [hh1, hh2]
    | 1, hi => simp at hi; exact absurd hi (ishex_ne_percent hh1)
    | 2, hi => simp at hi; exact absurd hi (ishex_ne_percent hh2)
    | j + 3, hi =>
      have := h j (by simpa using hi)
      simpa [Nat.add_right_comm] using this

theorem badEscape_none_iff : ∀ s : GoString, url.badEscape s = none ↔ validEscapes s
  | [] => by
    simp [url.badEscape, validEscapes]
  | [c] => by
    by_cases hc : c = url.Percent
    · simp only [url.badEscape, hc, if_true]
      constructor
      · intro h; simp at h
      · intro h
        have := h 0 (by simp)
        simp at this
    · rw [validEscapes_cons_of_ne _ hc]
      simp [url.badEscape, hc, validEscapes]
  | [c, h1] => by
    by_cases hc : c = url.Percent
    · simp only [url.badEscape, hc, if_true]
      constructor
      · intro h; simp at h
      · intro h
        have := h 0 (by simp)
        simp at this
    · rw [validEscapes_cons_of_ne _ hc]
      have ih := badEscape_none_iff [h1]
      rw [← ih]
      simp [url.badEscape, hc]
  | c :: h1 :: h2 :: rest => by
    by_cases hc : c = url.Percent
    · rw [validEscapes_escape c h1 h2 rest hc, ← badEscape_none_iff rest]
      simp only [url.badEscape, hc, if_true]
      by_cases hh : url.ishex h1 = true ∧ url.ishex h2 = true
      · simp [hh.1, hh.2]
      · have : (url.ishex h1 && url.ishex h2) = false := by
          simpa [Bool.and_eq_true] using hh
        simp only [this]
        constructor
        · intro h; simp at h
        · intro h; exact absurd ⟨h.1, h.2.1⟩ hh
    · rw [validEscapes_cons_of_ne _ hc, ← badEscape_none_iff (h1 :: h2 :: rest)]
      conv_lhs => rw [url.badEscape]
      simp [hc]

open filepath

/-! ## Lemmas: `filepath.Clean` -/

theorem takeWhile_append_sep (a rest : GoString) :
    (a ++ Separator :: rest).takeWhile (fun b => b != Separator) =
      a.takeWhile (fun b => b != Separator) := by
  induction a with
  | nil => simp
  | cons x a ih =>
    by_cases hx : x = Separator
    · simp [hx]
    · simp [hx, ih]

theorem dropWhile_append_sep (a rest : GoString) :
    (a ++ Separator :: rest).dropWhile (fun b => b != Separator) =
      a.dropWhile (fun b => b != Separator) ++ Separator :: rest := by
  induction a with
  | nil => simp
  | cons x a ih =>
    by_cases hx : x = Separator
    · simp [hx]
    · simp [hx, ih]

theorem length_dropWhile_le_self (p : Byte → Bool) (l : GoString) :
    (l.dropWhile p).length ≤ l.length := by
  induction l with
  | nil => simp
  | cons x l ih =>
    rw [List.dropWhile_cons]
    split
    · exact Nat.le_succ_of_le ih
    · exact Nat.le_refl _

theorem atBoundary_append (a rest : GoString) :
    atBoundary (a ++ Separator :: rest) = atBoundary a := by
  cases a <;> simp [atBoundary]

theorem cleanStep_length (rooted : Bool) (c : Byte) (rest out : GoString) (dd : Nat) :
    (cleanStep rooted c rest out dd).1.length ≤ rest.length := by
  unfold cleanStep
  by_cases h1 : c = Separator
  · simp [h1]
  · have hc : (c != Separator) = true := by simpa using h1
    have hdw : ((c :: rest).dropWhile (fun b => b != Separator)).length ≤ rest.length := by
      simp only [List.dropWhile_cons, hc, if_true]
      exact length_dropWhile_le_self _ _
    simp only [h1, if_false]
    split_ifs <;> first | exact Nat.le_refl _ | exact hdw | simp

theorem cleanStep_append (rooted : Bool) (c : Byte) (a rest out : GoString) (dd : Nat) :
    cleanStep rooted c (a ++ Separator :: rest) out dd =
      ((cleanStep rooted c a out dd).1 ++ Separator :: rest,
        (cleanStep rooted c a out dd).2.1, (cleanStep rooted c a out dd).2.2) := by
  have hd : Separator ≠ Dot := by decide
  cases a with
  | nil =>
    unfold cleanStep
    by_cases h1 : c = Separator
    · simp [h1]
    · by_cases h2 : c = Dot
      · simp [h1, h2, atBoundary]
      · simp [h1, h2, atBoundary]
  | cons x a =>
    unfold cleanStep
    simp only [List.cons_append, List.head?_cons, List.tail_cons, atBoundary_append]
    have e1 : atBoundary (x :: (a ++ Separator :: rest)) = atBoundary (x :: a) := by
      simp [atBoundary]
    rw [e1]
    have e2 := takeWhile_append_sep (c :: x :: a) rest
    have e3 := dropWhile_append_sep (c :: x :: a) rest
    simp only [List.cons_append] at e2 e3
    rw [e2, e3]
    split_ifs <;> rfl

theorem cleanLoop_cons (rooted : Bool) (n : Nat) (c : Byte) (rest out : GoString) (dd : Nat) :
    cleanLoop rooted (n + 1) (c :: rest) out dd =
      cleanLoop rooted n (cleanStep rooted c rest out dd).1
        (cleanStep rooted c rest out dd).2.1 (cleanStep rooted c rest out dd).2.2 := rfl

theorem cleanLoop_fuel (rooted : Bool) :
    ∀ (f1 f2 : Nat) (path out : GoString) (dd : Nat),
      path.length ≤ f1 → path.length ≤ f2 →
      cleanLoop rooted f1 path out dd = cleanLoop rooted f2 path out dd := by
  intro f1
  induction f1 with
  | zero =>
    intro f2 path out dd h1 _
    have hp : path = [] := by
      cases path with
      | nil => rfl
      | cons c rest => simp at h1
    subst hp
    cases f2 <;> simp [cleanLoop]
  | succ n ih =>
    intro f2 path out dd h1 h2
    cases path with
    | nil => cases f2 <;> simp [cleanLoop]
    | cons c rest =>
      cases f2 with
      | zero => simp at h2
      | succ m =>
        simp only [cleanLoop]
        have hl := cleanStep_length rooted c rest out dd
        simp only [List.length_cons] at h1 h2
        exact ih m _ _ _ (by omega) (by omega)

theorem cleanLoop_append (rooted : Bool) :
    ∀ (f : Nat) (a rest out : GoString) (dd : Nat),
      (a ++ Separator :: rest).length ≤ f →
      cleanLoop rooted f (a ++ Separator :: rest) out dd =
        cleanLoop rooted f (Separator :: rest)
          (cleanLoop rooted f a out dd).1 (cleanLoop rooted f a out dd).2 := by
  intro f
  induction f with
  | zero => intro a rest out dd h; simp at h
  | succ n ih =>
    intro a rest out dd h
    cases a with
    | nil => simp [cleanLoop]
    | cons c a =>
      have hl := cleanStep_length rooted c a out dd
      simp only [List.cons_append, List.length_cons, List.length_append] at h
      rw [List.cons_append, cleanLoop_cons, cleanStep_append,
        ih _ _ _ _ (by simp only [List.length_append, List.length_cons]; omega),
        cleanLoop_cons]
      have h1 : (Separator :: rest).length ≤ n := by
        simp only [List.length_cons]; omega
      exact cleanLoop_fuel rooted n (n + 1) (Separator :: rest) _ _ h1 (Nat.le_succ_of_le h1)

theorem unwind_spec (out : GoString) (dd : Nat) :
    ∀ w, dd ≤ w → w < out.length →
      dd ≤ unwind out dd w ∧ unwind out dd w ≤ w ∧
        (unwind out dd w = dd ∨ out[unwind out dd w]? = some Separator) := by
  intro w
  induction w with
  | zero =>
    intro h _
    simp only [unwind]
    exact ⟨h, Nat.le_refl _, Or.inl (by omega)⟩
  | succ n ih =>
    intro h hl
    simp only [unwind]
    split_ifs with hc
    · have := ih (by omega) (by omega)
      exact ⟨this.1, by omega, this.2.2⟩
    · refine ⟨h, Nat.le_refl _, ?_⟩
      by_cases hd : dd < n + 1
      · right
        have hg : out.getD (n + 1) 0 = Separator := by
          by_contra hne
          exact hc ⟨hd, hne⟩
        rw [List.getD_eq_getElem?_getD, List.getElem?_eq_getElem hl] at hg
        rw [List.getElem?_eq_getElem hl]
        simpa using hg
      · left; omega

theorem backtrack_spec (out : GoString) (dd : Nat) (h : dd < out.length) :
    ∃ w, backtrack out dd = out.take w ∧ dd ≤ w ∧ w < out.length ∧
      (w = dd ∨ out[w]? = some Separator) := by
  have hs := unwind_spec out dd (out.length - 1) (by omega) (by omega)
  exact ⟨_, rfl, hs.1, by omega, hs.2.2⟩

theorem cleanStep_rootedInv (c : Byte) (rest out : GoString) (dd : Nat)
    (h : rootedInv out dd) :
    rootedInv (cleanStep true c rest out dd).2.1 (cleanStep true c rest out dd).2.2 := by
  obtain ⟨hd, h0⟩ := h
  have hlen : 0 < out.length := by
    cases out with
    | nil => simp at h0
    | cons x l => simp
  unfold cleanStep
  split_ifs with h1 h2 h3 h4 h5 h6
  · exact ⟨hd, h0⟩
  · exact ⟨hd, h0⟩
  · obtain ⟨w, hw, hle, _, _⟩ := backtrack_spec out dd h4
    refine ⟨hd, ?_⟩
    simp only [hw]
    rw [List.getElem?_take_of_lt (by omega)]
    exact h0
  · simp at h5
  · exact ⟨hd, h0⟩
  · refine ⟨hd, ?_⟩
    simp only
    rw [List.append_assoc, List.getElem?_append_left hlen]
    exact h0
  · refine ⟨hd, ?_⟩
    simp only
    rw [List.getElem?_append_left hlen]
    exact h0

theorem cleanStep_relativeInv (c : Byte) (rest out : GoString) (dd : Nat)
    (h : relativeInv out dd) :
    relativeInv (cleanStep false c rest out dd).2.1 (cleanStep false c rest out dd).2.2 := by
  obtain ⟨hd, h0, h1⟩ := h
  have hds : Dot ≠ Separator := by decide
  unfold cleanStep
  by_cases c1 : c = Separator
  · rw [if_pos c1]; exact ⟨hd, h0, h1⟩
  by_cases c2 : c = Dot ∧ atBoundary rest = true
  · rw [if_neg c1, if_pos c2]; exact ⟨hd, h0, h1⟩
  by_cases c3 : c = Dot ∧ rest.head? = some Dot ∧ atBoundary rest.tail = true
  · rw [if_neg c1, if_neg c2, if_pos c3]
    by_cases c4 : dd < out.length
    · rw [if_pos c4]
      obtain ⟨w, hw, hle, hlt, hor⟩ := backtrack_spec out dd c4
      rw [hw]
      refine ⟨hd, ?_, ?_⟩
      · intro e
        by_cases hw0 : 0 < w
        · rw [List.getElem?_take_of_lt hw0] at e; exact h0 e
        · have : w = 0 := by omega
          subst this
          simp at e
      · rintro ⟨e0, e1⟩
        have hw0 : 0 < w := by
          by_contra hn
          have : w = 0 := by omega
          subst this
          simp at e0
        rw [List.getElem?_take_of_lt hw0] at e0
        have hlen : (out.take w).length = w := by
          rw [List.length_take]; omega
        rcases e1 with e1 | e1
        · rw [hlen] at e1
          subst e1
          rcases hor with hor | hor
          · omega
          · exact h1 ⟨e0, Or.inr hor⟩
        · by_cases hw1 : 1 < w
          · rw [List.getElem?_take_of_lt hw1] at e1
            exact h1 ⟨e0, Or.inr e1⟩
          · have hw1e : w = 1 := by omega
            subst hw1e
            rw [List.getElem?_eq_none (by rw [hlen])] at e1
            exact absurd e1 (by simp)
    · rw [if_neg c4, if_pos (by simp)]
      by_cases c5 : 0 < out.length
      · simp only [c5, if_true]
        refine ⟨Or.inr (by simp), ?_, ?_⟩
        · rw [List.append_assoc, List.getElem?_append_left c5]; exact h0
        · rintro ⟨e0, e1⟩
          rw [List.append_assoc, List.getElem?_append_left c5] at e0
          rcases e1 with e1 | e1
          · simp at e1
          · by_cases hl1 : 1 < out.length
            · rw [List.append_assoc, List.getElem?_append_left hl1] at e1
              exact h1 ⟨e0, Or.inr e1⟩
            · exact h1 ⟨e0, Or.inl (by omega)⟩
      · have ho : out = [] := by
          cases out with
          | nil => rfl
          | cons x l => simp at c5
        subst ho
        simp only [List.length_nil, Nat.lt_irrefl, if_false]
        refine ⟨Or.inr (by simp), by simp [hds], ?_⟩
        rintro ⟨_, e1⟩
        rcases e1 with e1 | e1
        · simp at e1
        · simp at e1; exact hds e1
  · rw [if_neg c1, if_neg c2, if_neg c3]
    have hc : (c != Separator) = true := by simpa using c1
    have htw : (c :: rest).takeWhile (fun b => b != Separator) =
        c :: rest.takeWhile (fun b => b != Separator) := by
      simp [List.takeWhile_cons, hc]
    have hcond : ((false = true ∧ out.length ≠ 1) ∨ (¬ false = true ∧ out.length ≠ 0)) ↔
        out.length ≠ 0 := by simp
    simp only [hcond]
    by_cases c5 : out.length ≠ 0
    · have c5pos : 0 < out.length := by omega
      rw [if_pos c5]
      refine ⟨hd, ?_, ?_⟩
      · rw [List.append_assoc, List.getElem?_append_left c5pos]; exact h0
      · rintro ⟨e0, e1⟩
        rw [List.append_assoc, List.getElem?_append_left c5pos] at e0
        rcases e1 with e1 | e1
        · simp only [List.length_append, List.length_cons, List.length_nil] at e1
          omega
        · by_cases hl1 : 1 < out.length
          · rw [List.append_assoc, List.getElem?_append_left hl1] at e1
            exact h1 ⟨e0, Or.inr e1⟩
          · exact h1 ⟨e0, Or.inl (by omega)⟩
    · have ho : out = [] := by
        cases out with
        | nil => rfl
        | cons x l => simp at c5
      subst ho
      rw [if_neg c5, List.nil_append, htw]
      refine ⟨hd, by simpa using c1, ?_⟩
      rintro ⟨e0, e1⟩
      have ec : c = Dot := by simpa using e0
      rcases e1 with e1 | e1
      · have ht : rest.takeWhile (fun b => b != Separator) = [] := by
          simpa using e1
        apply c2
        refine ⟨ec, ?_⟩
        cases rest with
        | nil => rfl
        | cons x l =>
          by_cases hx : x = Separator
          · simp [atBoundary, hx]
          · simp [List.takeWhile_cons, hx] at ht
      · cases hr : rest.takeWhile (fun b => b != Separator) with
        | nil => simp [hr] at e1
        | cons y l =>
          have hy : y ∈ rest.takeWhile (fun b => b != Separator) := by simp [hr]
          have := List.mem_takeWhile_imp hy
          simp [hr] at e1
          simp [e1] at this

theorem cleanLoop_rootedInv :
    ∀ (f : Nat) (path out : GoString) (dd : Nat), rootedInv out dd →
      rootedInv (cleanLoop true f path out dd).1 (cleanLoop true f path out dd).2 := by
  intro f
  induction f with
  | zero => intro path out dd h; exact h
  | succ n ih =>
    intro path out dd h
    cases path with
    | nil => exact h
    | cons c rest =>
      rw [cleanLoop_cons]
      exact ih _ _ _ (cleanStep_rootedInv c rest out dd h)

theorem cleanLoop_relativeInv :
    ∀ (f : Nat) (path out : GoString) (dd : Nat), relativeInv out dd →
      relativeInv (cleanLoop false f path out dd).1 (cleanLoop false f path out dd).2 := by
  intro f
  induction f with
  | zero => intro path out dd h; exact h
  | succ n ih =>
    intro path out dd h
    cases path with
    | nil => exact h
    | cons c rest =>
      rw [cleanLoop_cons]
      exact ih _ _ _ (cleanStep_relativeInv c rest out dd h)

theorem takeWhile_plain (seg rest : GoString) (hseg : ∀ b ∈ seg, b ≠ Separator)
    (hrest : atBoundary rest = true) :
    (seg ++ rest).takeWhile (fun b => b != Separator) = seg := by
  rw [List.takeWhile_append_of_pos (by simpa using hseg)]
  cases rest with
  | nil => simp
  | cons x l =>
    have : x = Separator := by simpa [atBoundary] using hrest
    simp [this]

theorem dropWhile_plain (seg rest : GoString) (hseg : ∀ b ∈ seg, b ≠ Separator)
    (hrest : atBoundary rest = true) :
    (seg ++ rest).dropWhile (fun b => b != Separator) = rest := by
  rw [List.dropWhile_append_of_pos (by simpa using hseg)]
  cases rest with
  | nil => simp
  | cons x l =>
    have : x = Separator := by simpa [atBoundary] using hrest
    simp [this]

/-- The loop of `Clean` on a plain element: a separator if the buffer needs one, then the
element. -/
theorem cleanLoop_plain (rooted : Bool) (f : Nat) (seg rest out : GoString) (dd : Nat)
    (hseg : plainElem seg) (hrest : atBoundary rest = true)
    (hf : (seg ++ rest).length ≤ f) :
    cleanLoop rooted f (seg ++ rest) out dd =
      cleanLoop rooted f rest
        ((if (rooted ∧ out.length ≠ 1) ∨ (¬ rooted ∧ out.length ≠ 0) then out ++ [Separator]
          else out) ++ seg) dd := by
  obtain ⟨hne, hall⟩ := hseg
  cases seg with
  | nil => exact absurd rfl hne
  | cons c s =>
    cases f with
    | zero => simp at hf
    | succ n =>
      have hc := hall c (by simp)
      have hsep : ∀ b ∈ c :: s, b ≠ Separator := fun b hb => (hall b hb).1
      have e : cleanStep rooted c (s ++ rest) out dd =
          (rest, (if (rooted ∧ out.length ≠ 1) ∨ (¬ rooted ∧ out.length ≠ 0) then
            out ++ [Separator] else out) ++ c :: s, dd) := by
        unfold cleanStep
        rw [if_neg hc.1, if_neg (fun h => hc.2 h.1), if_neg (fun h => hc.2 h.1)]
        have e1 := takeWhile_plain (c :: s) rest hsep hrest
        have e2 := dropWhile_plain (c :: s) rest hsep hrest
        simp only [List.cons_append] at e1 e2
        simp only [e1, e2]
      rw [List.cons_append, cleanLoop_cons, e]
      simp only [List.cons_append, List.length_cons, List.length_append] at hf
      exact cleanLoop_fuel rooted n (n + 1) rest _ _ (by omega) (by omega)

theorem cleanLoop_skip (rooted : Bool) (f : Nat) (rest out : GoString) (dd : Nat)
    (hf : (Separator :: rest).length ≤ f) :
    cleanLoop rooted f (Separator :: rest) out dd = cleanLoop rooted f rest out dd := by
  cases f with
  | zero => simp at hf
  | succ n =>
    rw [cleanLoop_cons]
    have e : cleanStep rooted Separator rest out dd = (rest, out, dd) := by
      unfold cleanStep
      rw [if_pos rfl]
    rw [e]
    simp only [List.length_cons] at hf
    exact cleanLoop_fuel rooted n (n + 1) rest _ _ (by omega) (by omega)

theorem cleanLoop_plain_sep (rooted : Bool) (f : Nat) (seg rest out : GoString) (dd : Nat)
    (hseg : plainElem seg) (hrest : atBoundary rest = true)
    (hf : (seg ++ rest).length ≤ f) (hout : 2 ≤ out.length) :
    cleanLoop rooted f (seg ++ rest) out dd =
      cleanLoop rooted f rest (out ++ [Separator] ++ seg) dd := by
  rw [cleanLoop_plain rooted f seg rest out dd hseg hrest hf]
  have hc : (rooted = true ∧ out.length ≠ 1) ∨ (¬ rooted = true ∧ out.length ≠ 0) := by
    cases rooted
    · exact Or.inr ⟨by simp, by omega⟩
    · exact Or.inl ⟨rfl, by omega⟩
  rw [if_pos hc]

/-- The loop of `Clean` on `/a/b/h` for three plain elements, the first of two bytes or
more, from a buffer `out`. -/
theorem cleanLoop_three (rooted : Bool) (f : Nat) (a b h out : GoString) (dd : Nat)
    (ha : plainElem a) (hb : plainElem b) (hh : plainElem h) (ha2 : 2 ≤ a.length)
    (hf : (Separator :: (a ++ Separator :: (b ++ Separator :: h))).length ≤ f) :
    (cleanLoop rooted f (Separator :: (a ++ Separator :: (b ++ Separator :: h))) out dd).1 =
      (if (rooted ∧ out.length ≠ 1) ∨ (¬ rooted ∧ out.length ≠ 0) then out ++ [Separator]
        else out) ++ a ++ [Separator] ++ b ++ [Separator] ++ h := by
  simp only [List.length_cons, List.length_append] at hf
  generalize ho : (if (rooted ∧ out.length ≠ 1) ∨ (¬ rooted ∧ out.length ≠ 0) then
    out ++ [Separator] else out) = o1
  rw [cleanLoop_skip rooted f _ out dd (by simp only [List.length_cons, List.length_append]; omega),
    cleanLoop_plain rooted f a _ out dd ha (by simp [atBoundary])
      (by simp only [List.length_cons, List.length_append]; omega), ho,
    cleanLoop_skip rooted f _ _ dd (by simp only [List.length_cons, List.length_append]; omega),
    cleanLoop_plain_sep rooted f b _ _ dd hb (by simp [atBoundary])
      (by simp only [List.length_cons, List.length_append]; omega)
      (by simp only [List.length_append]; omega),
    cleanLoop_skip rooted f _ _ dd (by simp only [List.length_cons]; omega)]
  have e := cleanLoop_plain_sep rooted f h [] (o1 ++ a ++ [Separator] ++ b) dd hh rfl
    (by simp only [List.append_nil]; omega)
    (by simp only [List.length_append]; omega)
  rw [List.append_nil] at e
  rw [e]
  cases f with
  | zero => rfl
  | succ n => rfl

theorem rootedInv_facts {o : GoString} {d : Nat} (h : rootedInv o d) :
    o ≠ [] ∧ o ≠ [Dot] ∧ (o.length = 1 → o = [Separator]) := by
  obtain ⟨_, h0⟩ := h
  cases o with
  | nil => simp at h0
  | cons x l =>
    have hx : x = Separator := by simpa using h0
    subst hx
    refine ⟨by simp, ?_, ?_⟩
    · intro e
      have : Separator = Dot := (List.cons.inj e).1
      exact absurd this (by decide)
    · intro hl
      have : l = [] := by
        cases l with
        | nil => rfl
        | cons y t => simp at hl
      rw [this]

theorem relativeInv_facts {o : GoString} {d : Nat} (h : relativeInv o d) :
    o ≠ [Dot] ∧ o ≠ [Separator] := by
  obtain ⟨_, h0, h1⟩ := h
  constructor
  · intro e
    subst e
    exact h1 ⟨by simp, Or.inl rfl⟩
  · intro e
    subst e
    exact h0 (by simp)

theorem cleanBuf_rootedInv (r : GoString) :
    rootedInv (cleanLoop true r.length r [Separator] 1).1
      (cleanLoop true r.length r [Separator] 1).2 :=
  cleanLoop_rootedInv _ _ _ _ ⟨rfl, by simp⟩

theorem cleanBuf_relativeInv (p : GoString) :
    relativeInv (cleanLoop false p.length p [] 0).1 (cleanLoop false p.length p [] 0).2 :=
  cleanLoop_relativeInv _ _ _ _ ⟨Or.inl rfl, by simp, by simp⟩

/-- The buffer of `Clean` on `root/a/b/h`, for a root that is not empty. -/
theorem cleanBuf_join (c : Byte) (r a b h : GoString)
    (ha : plainElem a) (hb : plainElem b) (hh : plainElem h) (ha2 : 2 ≤ a.length) :
    cleanBuf ((c :: r) ++ Separator :: (a ++ Separator :: (b ++ Separator :: h))) =
      dirPrefix (Clean (c :: r)) ++ a ++ [Separator] ++ b ++ [Separator] ++ h := by
  by_cases hc : c = Separator
  · subst hc
    have hinv := cleanBuf_rootedInv r
    obtain ⟨hne, hnd, hone⟩ := rootedInv_facts hinv
    have hclean : Clean (Separator :: r) = (cleanLoop true r.length r [Separator] 1).1 := by
      simp only [Clean, cleanBuf, if_true]
      rw [if_neg hne]
    rw [hclean]
    simp only [cleanBuf, List.cons_append, if_true]
    rw [cleanLoop_append true _ r _ _ _ (Nat.le_refl _),
      cleanLoop_fuel true _ r.length r _ _
        (by simp only [List.length_append, List.length_cons]; omega) (Nat.le_refl _),
      cleanLoop_three true _ a b h _ _ ha hb hh ha2
        (by simp only [List.length_append, List.length_cons]; omega)]
    generalize (cleanLoop true r.length r [Separator] 1).1 = o at hne hnd hone
    by_cases h1 : o.length = 1
    · have ho := hone h1
      subst ho
      have hsd : Separator ≠ Dot := by decide
      simp [dirPrefix, hsd]
    · have hns : o ≠ [Separator] := fun e => h1 (by rw [e]; rfl)
      rw [if_pos (Or.inl ⟨rfl, h1⟩)]
      simp only [dirPrefix, if_neg hnd, if_neg hns]
  · have hinv := cleanBuf_relativeInv (c :: r)
    obtain ⟨hnd, hns⟩ := relativeInv_facts hinv
    have hbuf : cleanBuf (c :: r) = (cleanLoop false (c :: r).length (c :: r) [] 0).1 := by
      simp only [cleanBuf, if_neg hc]
    have hbig : cleanBuf ((c :: r) ++ Separator :: (a ++ Separator :: (b ++ Separator :: h))) =
        (cleanLoop false ((c :: r) ++ Separator :: (a ++ Separator :: (b ++ Separator :: h))).length
          ((c :: r) ++ Separator :: (a ++ Separator :: (b ++ Separator :: h))) [] 0).1 := by
      simp only [List.cons_append, cleanBuf, if_neg hc]
    rw [hbig, cleanLoop_append false _ (c :: r) _ _ _ (Nat.le_refl _),
      cleanLoop_fuel false _ (c :: r).length (c :: r) _ _
        (by simp only [List.length_append, List.length_cons]; omega) (Nat.le_refl _),
      cleanLoop_three false _ a b h _ _ ha hb hh ha2
        (by simp only [List.length_append, List.length_cons]; omega)]
    simp only [Clean, hbuf]
    generalize (cleanLoop false (c :: r).length (c :: r) [] 0).1 = o at hnd hns
    by_cases h0 : o = []
    · subst h0
      simp [dirPrefix]
    · have hl : o.length ≠ 0 := fun e => h0 (List.length_eq_zero.1 e)
      rw [if_pos (Or.inr ⟨by simp, hl⟩), if_neg h0]
      simp only [dirPrefix, if_neg hnd, if_neg hns]

/-- The buffer of `Clean` on `a/b/h`. -/
theorem cleanBuf_three (a b h : GoString)
    (ha : plainElem a) (hb : plainElem b) (hh : plainElem h) (ha2 : 2 ≤ a.length) :
    cleanBuf (a ++ Separator :: (b ++ Separator :: h)) =
      a ++ [Separator] ++ b ++ [Separator] ++ h := by
  obtain ⟨hne, hall⟩ := ha
  cases a with
  | nil => exact absurd rfl hne
  | cons c s =>
    have hc := (hall c (by simp)).1
    have hbig : cleanBuf ((c :: s) ++ Separator :: (b ++ Separator :: h)) =
        (cleanLoop false ((c :: s) ++ Separator :: (b ++ Separator :: h)).length
          ((c :: s) ++ Separator :: (b ++ Separator :: h)) [] 0).1 := by
      simp only [List.cons_append, cleanBuf, if_neg hc]
    have e := cleanLoop_three false
      (((c :: s) ++ Separator :: (b ++ Separator :: h)).length + 1) (c :: s) b h [] 0
      ⟨hne, hall⟩ hb hh ha2 (by simp only [List.length_append, List.length_cons]; omega)
    rw [cleanLoop_skip false _ _ _ _
      (by simp only [List.length_append, List.length_cons]; omega)] at e
    rw [hbig, cleanLoop_fuel false _ (((c :: s) ++ Separator :: (b ++ Separator :: h)).length + 1)
      _ _ _ (Nat.le_refl _) (Nat.le_succ _), e]
    simp

/-- What `filepath.Join` gives for a root and three plain elements: the elements under the
cleaned root. -/
theorem Join_under_root (root a b h : GoString)
    (ha : plainElem a) (hb : plainElem b) (hh : plainElem h) (ha2 : 2 ≤ a.length) :
    Join [root, a, b, h] =
      dirPrefix (Clean root) ++ a ++ [Separator] ++ b ++ [Separator] ++ h := by
  have hne : a ≠ [] := ha.1
  cases root with
  | nil =>
    have hcl : Clean [] = [Dot] := by simp [Clean, cleanBuf]
    rw [hcl]
    simp only [Join, if_true, if_neg hne, joinSep, Clean]
    rw [cleanBuf_three a b h ha hb hh ha2]
    have : a ++ [Separator] ++ b ++ [Separator] ++ h ≠ [] := by
      cases a with
      | nil => exact absurd rfl hne
      | cons x l => simp
    rw [if_neg this]
    simp [dirPrefix]
  | cons c r =>
    have hj : Join [c :: r, a, b, h] =
        Clean ((c :: r) ++ Separator :: (a ++ Separator :: (b ++ Separator :: h))) := by
      simp [Join, joinSep]
    rw [hj, Clean, cleanBuf_join c r a b h ha hb hh ha2]
    have : dirPrefix (Clean (c :: r)) ++ a ++ [Separator] ++ b ++ [Separator] ++ h ≠ [] := by
      simp
    rw [if_neg this]

/-! ## The claims -/

/-- C1: a miss answered by an upstream 200 with headers `H` and body `b` gives the client
status 200 (the upstream's status), every upstream header with exactly the upstream's values
and the body `b`; and when the cache write succeeds the store afterwards holds exactly `b` at
`cachePath(p)`. -/
theorem miss_fetch_serves_and_stores (upstream : GoString) (cache : FluxCache) (env : Env)
    (r : http.Request) (σ : World) (p loc b : GoString) (resp : http.Response)
    (hp : url.PathUnescape (trimSlash r.Path) = .ok p)
    (hloc : cache.cachePath p = .ok loc)
    (hmiss : os.ReadFile σ.fs loc = none)
    (hget : env.get (upstream ++ r.Path ++ str "?" ++ r.RawQuery) = some resp)
    (hstatus : resp.StatusCode = 200) (hbody : resp.Body = some b) :
    ∃ w, (handler upstream cache env r σ).1 = Outcome.response w ∧
      w.status = some resp.StatusCode ∧ w.status = some 200 ∧
      (∀ k v, resp.Header k = some v → w.header k = some v) ∧
      w.body = b ∧
      ((persist env.faults σ.fs loc b).2 = none →
        os.ReadFile (handler upstream cache env r σ).2.fs loc = some b) := by
  rw [handler_miss upstream cache env r σ p loc hp hloc hmiss,
    fetchAndCache_ok upstream cache env _ r σ p loc b resp hloc hget hstatus hbody]
  refine ⟨_, rfl, ?_, ?_, ?_, ?_, ?_⟩
  · simp [http.ResponseWriter.Write, http.ResponseWriter.WriteHeader,
      http.ResponseWriter.fresh, hstatus]
  · simp [http.ResponseWriter.Write, http.ResponseWriter.WriteHeader,
      http.ResponseWriter.fresh]
  · intro k v hk
    simp [http.ResponseWriter.Write, http.ResponseWriter.WriteHeader,
      http.ResponseWriter.fresh, http.Header.assignAll, hk]
  · simp [http.ResponseWriter.Write, http.ResponseWriter.WriteHeader,
      http.ResponseWriter.fresh]
  · intro hw
    exact WriteFile_ok_ReadFile _ _ _ _ hw

set_option maxRecDepth 1000000 in
/-- C1, at the specification's scenario: empty cache, upstream 200. -/
theorem miss_fetch_serves_and_stores_witness :
    (persist os.Faults.none emptyWorld.fs infoLoc infoBody).2 = none ∧
    ∃ w, (handler goProxy defaultCache (upstreamAnswering 200 os.Faults.none)
          (infoRequest (str "GET") []) emptyWorld).1 = Outcome.response w ∧
      w.status = some 200 ∧ w.status = some 200 ∧
      (∀ k v, jsonHeader k = some v → w.header k = some v) ∧
      w.body = infoBody ∧
      ((persist os.Faults.none emptyWorld.fs infoLoc infoBody).2 = none →
        os.ReadFile (handler goProxy defaultCache (upstreamAnswering 200 os.Faults.none)
          (infoRequest (str "GET") []) emptyWorld).2.fs infoLoc = some infoBody) :=
  ⟨by decide,
   miss_fetch_serves_and_stores goProxy defaultCache (upstreamAnswering 200 os.Faults.none)
    (infoRequest (str "GET") []) emptyWorld infoPath infoLoc infoBody
    ⟨200, jsonHeader, some infoBody⟩ (by rfl) (by rfl) (by decide) rfl rfl rfl⟩

/-- C3: round trip of the cache store: for every module path `p`, bytes `b` and store, the
write of `fetchAndCache` under `p` (`MkdirAll` of the parent and `WriteFile` at
`cachePath(p)`), when it succeeds, followed by the read of `serveFromCache` for `p` returns
`b`, found, whatever the location held before. -/
theorem write_then_read_roundtrip (cache : FluxCache) (fl : os.Faults) (fs fs1 : os.FS)
    (p b : GoString)
    (hw : cache.write fl fs p b = .ok (fs1, none)) :
    cache.read fs1 p = .ok (some b) := by
  obtain ⟨loc, hloc⟩ : ∃ loc, cache.cachePath p = .ok loc := ⟨_, cachePath_eq cache p⟩
  rw [FluxCache.write, hloc] at hw
  simp only [Except.ok.injEq] at hw
  have h2 : (persist fl fs loc b).2 = none := by rw [hw]
  have h1 : (persist fl fs loc b).1 = fs1 := by rw [hw]
  rw [FluxCache.read, hloc, ← h1]
  exact congrArg _ (WriteFile_ok_ReadFile _ _ _ _ h2)

set_option maxRecDepth 1000000 in
/-- C3, at a store that already holds other bytes for the path, and with the empty body: the
write succeeds and replaces them. -/
theorem write_then_read_roundtrip_witness :
    defaultCache.read (persist os.Faults.none os.FS.empty infoLoc infoBody).1 infoPath =
      .ok (some infoBody) ∧
    defaultCache.write os.Faults.none (persist os.Faults.none os.FS.empty infoLoc infoBody).1
      infoPath [] = .ok ((persist os.Faults.none
        (persist os.Faults.none os.FS.empty infoLoc infoBody).1 infoLoc []).1, none) ∧
    defaultCache.read (persist os.Faults.none
        (persist os.Faults.none os.FS.empty infoLoc infoBody).1 infoLoc []).1 infoPath =
      .ok (some []) :=
  ⟨by rfl, by rfl,
   write_then_read_roundtrip defaultCache os.Faults.none
    (persist os.Faults.none os.FS.empty infoLoc infoBody).1 _ infoPath [] (by rfl)⟩

/-- C4: on a miss, when the upstream fetch fails at transport level or answers with a status
other than 200, the handler answers 502 Bad Gateway and leaves the store as it was: a read
of `p` afterwards still finds nothing. -/
theorem upstream_failure_gives_502 (upstream : GoString) (cache : FluxCache) (env : Env)
    (r : http.Request) (σ : World) (p loc : GoString)
    (hp : url.PathUnescape (trimSlash r.Path) = .ok p)
    (hloc : cache.cachePath p = .ok loc)
    (hmiss : os.ReadFile σ.fs loc = none)
    (hfail : env.get (upstream ++ r.Path ++ str "?" ++ r.RawQuery) = none ∨
      ∃ resp, env.get (upstream ++ r.Path ++ str "?" ++ r.RawQuery) = some resp ∧
        resp.StatusCode ≠ 200) :
    ∃ w, (handler upstream cache env r σ).1 = Outcome.response w ∧
      w.status = some 502 ∧
      (handler upstream cache env r σ).2.fs = σ.fs ∧
      os.ReadFile (handler upstream cache env r σ).2.fs loc = none := by
  rw [handler_miss upstream cache env r σ p loc hp hloc hmiss,
    fetchAndCache_fail upstream cache env _ r σ p hfail]
  exact ⟨_, rfl, Error_status 502 _, rfl, hmiss⟩

set_option maxRecDepth 1000000 in
/-- C4, at the specification's scenario with an upstream that answers 500. -/
theorem upstream_failure_gives_502_witness :
    ∃ w, (handler goProxy defaultCache (upstreamAnswering 500 os.Faults.none)
          (infoRequest (str "GET") []) emptyWorld).1 = Outcome.response w ∧
      w.status = some 502 ∧
      (handler goProxy defaultCache (upstreamAnswering 500 os.Faults.none)
        (infoRequest (str "GET") []) emptyWorld).2.fs = emptyWorld.fs ∧
      os.ReadFile (handler goProxy defaultCache (upstreamAnswering 500 os.Faults.none)
        (infoRequest (str "GET") []) emptyWorld).2.fs infoLoc = none :=
  upstream_failure_gives_502 goProxy defaultCache (upstreamAnswering 500 os.Faults.none)
    (infoRequest (str "GET") []) emptyWorld infoPath infoLoc (by rfl) (by rfl) (by decide)
    (Or.inr ⟨⟨500, jsonHeader, some infoBody⟩, rfl, by decide⟩)

/-- C5: a request whose path, after the leading slash is stripped, is not validly
percent-encoded is rejected with 400 Bad Request; no upstream call is made and the store is
unchanged. -/
theorem malformed_path_rejected (upstream : GoString) (cache : FluxCache) (env : Env)
    (r : http.Request) (σ : World)
    (hbad : ¬ validEscapes (trimSlash r.Path)) :
    ∃ w, (handler upstream cache env r σ).1 = Outcome.response w ∧
      w.status = some 400 ∧
      (handler upstream cache env r σ).2.calls = σ.calls ∧
      (handler upstream cache env r σ).2.fs = σ.fs := by
  cases hb : url.badEscape (trimSlash r.Path) with
  | none => exact absurd ((badEscape_none_iff _).1 hb) hbad
  | some e =>
    rw [handler_bad upstream cache env r σ e hb]
    exact ⟨_, rfl, Error_status 400 _, rfl, rfl⟩

/-- C5, at the path `/github.com/foo/%zz`. -/
theorem malformed_path_rejected_witness :
    ¬ validEscapes (trimSlash (str "/github.com/foo/%zz")) ∧
    ∃ w, (handler goProxy defaultCache (upstreamAnswering 200 os.Faults.none)
          ⟨str "GET", str "/github.com/foo/%zz", []⟩ emptyWorld).1 = Outcome.response w ∧
      w.status = some 400 ∧
      (handler goProxy defaultCache (upstreamAnswering 200 os.Faults.none)
        ⟨str "GET", str "/github.com/foo/%zz", []⟩ emptyWorld).2.calls = emptyWorld.calls ∧
      (handler goProxy defaultCache (upstreamAnswering 200 os.Faults.none)
        ⟨str "GET", str "/github.com/foo/%zz", []⟩ emptyWorld).2.fs = emptyWorld.fs :=
  ⟨fun h => by
      have hb := (badEscape_none_iff _).2 h
      revert hb
      decide,
   malformed_path_rejected goProxy defaultCache (upstreamAnswering 200 os.Faults.none)
    ⟨str "GET", str "/github.com/foo/%zz", []⟩ emptyWorld
    (fun h => by
      have hb := (badEscape_none_iff _).2 h
      revert hb
      decide)⟩

/-- C7, as amended: on every cache miss the handler calls `http.Get` exactly once, with the
string `<upstream><path>?<rawquery>` made of the upstream base, the path as the handler
receives it and the raw query (a bare `?` when the query is empty). The GETs sent are those
of that one call: none when the client refuses the string as a URL, as it does a string with
a control character, and the handler then answers 502; otherwise the first GET is for that
URL, there are at most 10, and it is the only one unless the upstream answers it with a
redirect. -/
theorem miss_calls_get_once (upstream : GoString) (cache : FluxCache) (env : Env)
    (r : http.Request) (σ : World) (p loc : GoString)
    (hp : url.PathUnescape (trimSlash r.Path) = .ok p)
    (hloc : cache.cachePath p = .ok loc)
    (hmiss : os.ReadFile σ.fs loc = none) :
    (handler upstream cache env r σ).2.calls =
      σ.calls ++ [upstream ++ r.Path ++ str "?" ++ r.RawQuery] ∧
    (handler upstream cache env r σ).2.sent =
      σ.sent ++ env.sent (upstream ++ r.Path ++ str "?" ++ r.RawQuery) ∧
    (http.refused env.rejects (upstream ++ r.Path ++ str "?" ++ r.RawQuery) = true →
      env.sent (upstream ++ r.Path ++ str "?" ++ r.RawQuery) = [] ∧
      ∃ w, (handler upstream cache env r σ).1 = Outcome.response w ∧ w.status = some 502) ∧
    (http.refused env.rejects (upstream ++ r.Path ++ str "?" ++ r.RawQuery) = false →
      (env.sent (upstream ++ r.Path ++ str "?" ++ r.RawQuery)).head? =
        some (upstream ++ r.Path ++ str "?" ++ r.RawQuery) ∧
      (env.sent (upstream ++ r.Path ++ str "?" ++ r.RawQuery)).length ≤ 10 ∧
      ((∀ location, env.server (upstream ++ r.Path ++ str "?" ++ r.RawQuery) ≠
          some (http.Reply.redirect location)) →
        env.sent (upstream ++ r.Path ++ str "?" ++ r.RawQuery) =
          [upstream ++ r.Path ++ str "?" ++ r.RawQuery])) := by
  have hm := handler_miss upstream cache env r σ p loc hp hloc hmiss
  refine ⟨?_, ?_, ?_, ?_⟩
  · rw [hm, fetchAndCache_calls]; rfl
  · rw [hm, fetchAndCache_sent]; rfl
  · intro hr
    have hg := Get_refused env.rejects env.server _ hr
    refine ⟨by rw [Env.sent, hg], ?_⟩
    rw [hm, fetchAndCache_fail upstream cache env _ r σ p
      (Or.inl (by rw [Env.get]; exact congrArg Prod.snd hg))]
    exact ⟨_, rfl, Error_status 502 _⟩
  · intro hr
    exact ⟨getLoop_head env.rejects env.server 9 _ hr,
      getLoop_length env.rejects env.server 10 _,
      fun hd => getLoop_direct env.rejects env.server 9 _ hr hd⟩

set_option maxRecDepth 1000000 in
/-- C7 as amended, at a path with a percent-escape and an empty query, with an upstream that
answers directly: the path goes upstream as the handler received it, followed by a bare
`?`, in one GET. -/
theorem miss_calls_get_once_witness :
    url.PathUnescape (trimSlash (str "/github.com/foo/%21bar")) = .ok (str "github.com/foo/!bar") ∧
    defaultCache.read emptyWorld.fs (str "github.com/foo/!bar") = .ok none ∧
    http.refused (upstreamAnswering 200 os.Faults.none).rejects
      (str "https://proxy.golang.org/github.com/foo/%21bar?") = false ∧
    (upstreamAnswering 200 os.Faults.none).sent
        (str "https://proxy.golang.org/github.com/foo/%21bar?") =
      [str "https://proxy.golang.org/github.com/foo/%21bar?"] ∧
    (handler goProxy defaultCache (upstreamAnswering 200 os.Faults.none)
        ⟨str "GET", str "/github.com/foo/%21bar", []⟩ emptyWorld).2.calls =
      [str "https://proxy.golang.org/github.com/foo/%21bar?"] ∧
    (handler goProxy defaultCache (upstreamAnswering 200 os.Faults.none)
        ⟨str "GET", str "/github.com/foo/%21bar", []⟩ emptyWorld).2.sent =
      [] ++ (upstreamAnswering 200 os.Faults.none).sent
        (str "https://proxy.golang.org/github.com/foo/%21bar?") :=
  ⟨by rfl, by rfl, by decide, by decide,
   (miss_calls_get_once goProxy defaultCache (upstreamAnswering 200 os.Faults.none)
    ⟨str "GET", str "/github.com/foo/%21bar", []⟩ emptyWorld (str "github.com/foo/!bar")
    (filepath.Join [defaultCache.cacheRoot, (hashOf (str "github.com/foo/!bar")).take 2,
      ((hashOf (str "github.com/foo/!bar")).take 4).drop 2, hashOf (str "github.com/foo/!bar")])
    (by rfl) (cachePath_eq _ _) (by rfl)).1,
   (miss_calls_get_once goProxy defaultCache (upstreamAnswering 200 os.Faults.none)
    ⟨str "GET", str "/github.com/foo/%21bar", []⟩ emptyWorld (str "github.com/foo/!bar")
    (filepath.Join [defaultCache.cacheRoot, (hashOf (str "github.com/foo/!bar")).take 2,
      ((hashOf (str "github.com/foo/!bar")).take 4).drop 2, hashOf (str "github.com/foo/!bar")])
    (by rfl) (cachePath_eq _ _) (by rfl)).2.1⟩

set_option maxRecDepth 1000000 in
/-- C7 as stated fails: a request whose path holds a line feed (`GET /a%0Ab` on the wire)
misses, `http.Get` is called with a string it refuses, no GET is sent and the client gets
502; and when the upstream answers the GET with a redirect, two GETs are sent for one
miss. -/
theorem miss_without_exactly_one_get :
    url.PathUnescape (trimSlash lineFeedRequest.Path) = .ok [97, 10, 98] ∧
    defaultCache.read emptyWorld.fs [97, 10, 98] = .ok none ∧
    (handler goProxy defaultCache (upstreamAnswering 200 os.Faults.none) lineFeedRequest
      emptyWorld).2.calls = [goProxy ++ [47, 97, 10, 98] ++ str "?"] ∧
    (handler goProxy defaultCache (upstreamAnswering 200 os.Faults.none) lineFeedRequest
      emptyWorld).2.sent = [] ∧
    (∃ w, (handler goProxy defaultCache (upstreamAnswering 200 os.Faults.none) lineFeedRequest
      emptyWorld).1 = Outcome.response w ∧ w.status = some 502) ∧
    defaultCache.read emptyWorld.fs infoPath = .ok none ∧
    (handler goProxy defaultCache upstreamRedirecting (infoRequest (str "GET") [])
      emptyWorld).2.sent =
      [str "https://proxy.golang.org/github.com/foo/bar@v1.0.0.info?",
       str "https://mirror.example/github.com/foo/bar@v1.0.0.info"] := by
  have hm := handler_miss goProxy defaultCache (upstreamAnswering 200 os.Faults.none)
    lineFeedRequest emptyWorld [97, 10, 98] _ (by rfl) (cachePath_eq _ _) (by rfl)
  refine ⟨by rfl, by rfl, by decide, by decide, ?_, by rfl, by decide⟩
  rw [hm, fetchAndCache_fail goProxy defaultCache _ _ lineFeedRequest emptyWorld _
    (Or.inl (by rfl))]
  exact ⟨_, rfl, Error_status 502 _⟩

/-- C8: a cache write failure is invisible to the client. For a miss answered by an upstream
200 with headers `H` and body `b`, the response is the same in any two runs, whatever the
medium refuses and whatever the store holds elsewhere, so whether the directory creation and
file write succeed or fail; and when a run leaves the store without a readable artifact for
`p` (its write then failed), the next request for `p` is a miss again and calls the
upstream. -/
theorem write_failure_invisible (upstream : GoString) (cache : FluxCache)
    (env env1 env2 : Env) (r r2 : http.Request) (σ σ1 : World) (p loc b : GoString)
    (resp : http.Response)
    (hp : url.PathUnescape (trimSlash r.Path) = .ok p)
    (hp2 : url.PathUnescape (trimSlash r2.Path) = .ok p)
    (hloc : cache.cachePath p = .ok loc)
    (hmiss : os.ReadFile σ.fs loc = none)
    (hmiss1 : os.ReadFile σ1.fs loc = none)
    (hget : env.get (upstream ++ r.Path ++ str "?" ++ r.RawQuery) = some resp)
    (hget1 : env1.get (upstream ++ r.Path ++ str "?" ++ r.RawQuery) = some resp)
    (hstatus : resp.StatusCode = 200) (hbody : resp.Body = some b)
    (hleft : os.ReadFile (handler upstream cache env1 r σ1).2.fs loc = none) :
    (handler upstream cache env r σ).1 = (handler upstream cache env1 r σ1).1 ∧
    (∃ w, (handler upstream cache env1 r σ1).1 = Outcome.response w ∧
      w.status = some 200 ∧ w.header = resp.Header ∧ w.body = b) ∧
    (persist env1.faults σ1.fs loc b).2 ≠ none ∧
    (handler upstream cache env2 r2 (handler upstream cache env1 r σ1).2).2.calls =
      σ1.calls ++ [upstream ++ r.Path ++ str "?" ++ r.RawQuery,
        upstream ++ r2.Path ++ str "?" ++ r2.RawQuery] := by
  have e := handler_miss upstream cache env r σ p loc hp hloc hmiss
  have e1 := handler_miss upstream cache env1 r σ1 p loc hp hloc hmiss1
  rw [fetchAndCache_ok upstream cache env _ r σ p loc b resp hloc hget hstatus hbody] at e
  rw [fetchAndCache_ok upstream cache env1 _ r σ1 p loc b resp hloc hget1 hstatus hbody] at e1
  have e2 := handler_miss upstream cache env2 r2 _ p loc hp2 hloc hleft
  refine ⟨by rw [e, e1], ⟨_, by rw [e1], served_status _ _, ?_, served_body _ _⟩, ?_, ?_⟩
  · rw [served_header, assignAll_fresh]
  · intro hw
    rw [e1] at hleft
    have := WriteFile_ok_ReadFile _ _ _ _ hw
    exact absurd (this.symm.trans hleft) (by simp)
  · rw [e2, fetchAndCache_calls, e1]
    simp [upstreamURL]

set_option maxRecDepth 1000000 in
/-- C8, at the specification's scenario: on a healthy medium the write succeeds, on a medium
that lets no file be opened it fails and leaves nothing; the client gets the same response,
and the second request on the failing medium goes upstream again. -/
theorem write_failure_invisible_witness :
    (persist os.Faults.none emptyWorld.fs infoLoc infoBody).2 = none ∧
    os.ReadFile (handler goProxy defaultCache (upstreamAnswering 200 readOnly)
      (infoRequest (str "GET") []) emptyWorld).2.fs infoLoc = none ∧
    ((handler goProxy defaultCache (upstreamAnswering 200 os.Faults.none)
        (infoRequest (str "GET") []) emptyWorld).1 =
      (handler goProxy defaultCache (upstreamAnswering 200 readOnly)
        (infoRequest (str "GET") []) emptyWorld).1 ∧
    (∃ w, (handler goProxy defaultCache (upstreamAnswering 200 readOnly)
        (infoRequest (str "GET") []) emptyWorld).1 = Outcome.response w ∧
      w.status = some 200 ∧ w.header = jsonHeader ∧ w.body = infoBody) ∧
    (persist readOnly emptyWorld.fs infoLoc infoBody).2 ≠ none ∧
    (handler goProxy defaultCache (upstreamAnswering 200 readOnly) (infoRequest (str "GET") [])
        (handler goProxy defaultCache (upstreamAnswering 200 readOnly)
          (infoRequest (str "GET") []) emptyWorld).2).2.calls =
      [] ++ [goProxy ++ str "/github.com/foo/bar@v1.0.0.info" ++ str "?" ++ [],
        goProxy ++ str "/github.com/foo/bar@v1.0.0.info" ++ str "?" ++ []]) :=
  ⟨by decide, by decide,
   write_failure_invisible goProxy defaultCache (upstreamAnswering 200 os.Faults.none)
    (upstreamAnswering 200 readOnly) (upstreamAnswering 200 readOnly)
    (infoRequest (str "GET") []) (infoRequest (str "GET") []) emptyWorld emptyWorld
    infoPath infoLoc infoBody ⟨200, jsonHeader, some infoBody⟩
    (by rfl) (by rfl) (by rfl) (by decide) (by decide) rfl rfl rfl rfl (by decide)⟩

/-- C9: handling a request touches only the artifact location of its own key: every other
location reads the same (same content, or nothing) after the handler as before, whatever
the store and the upstream do, the only other change being directories created where there
was nothing; and on a cache hit the whole store is unchanged. -/
theorem handler_touches_own_location_only (upstream : GoString) (cache : FluxCache)
    (env : Env) (r : http.Request) (σ : World) (p loc : GoString)
    (hp : url.PathUnescape (trimSlash r.Path) = .ok p)
    (hloc : cache.cachePath p = .ok loc) :
    (∀ q, q ≠ loc →
      os.ReadFile (handler upstream cache env r σ).2.fs q = os.ReadFile σ.fs q) ∧
    (∀ q, q ≠ loc →
      (handler upstream cache env r σ).2.fs q = σ.fs q ∨
        (σ.fs q = none ∧ (handler upstream cache env r σ).2.fs q = some os.Node.dir)) ∧
    (∀ data, os.ReadFile σ.fs loc = some data →
      (handler upstream cache env r σ).2.fs = σ.fs) := by
  refine ⟨?_, ?_, ?_⟩
  · intro q hq
    cases hr : os.ReadFile σ.fs loc with
    | some data => rw [handler_hit upstream cache env r σ p loc data hp hloc hr]
    | none =>
      rw [handler_miss upstream cache env r σ p loc hp hloc hr]
      exact fetchAndCache_ReadFile_other upstream cache env _ r σ p loc q hloc hq
  · intro q hq
    cases hr : os.ReadFile σ.fs loc with
    | some data =>
      rw [handler_hit upstream cache env r σ p loc data hp hloc hr]
      exact Or.inl rfl
    | none =>
      rw [handler_miss upstream cache env r σ p loc hp hloc hr]
      exact fetchAndCache_other upstream cache env _ r σ p loc q hloc hq
  · intro data hr
    rw [handler_hit upstream cache env r σ p loc data hp hloc hr]

set_option maxRecDepth 1000000 in
/-- C9, at the specification's scenario, for a miss on the empty store: the artifact is
written and nothing else can be read afterwards. -/
theorem handler_touches_own_location_only_witness :
    os.ReadFile (handler goProxy defaultCache (upstreamAnswering 200 os.Faults.none)
      (infoRequest (str "GET") []) emptyWorld).2.fs infoLoc = some infoBody ∧
    ((∀ q, q ≠ infoLoc →
      os.ReadFile (handler goProxy defaultCache (upstreamAnswering 200 os.Faults.none)
        (infoRequest (str "GET") []) emptyWorld).2.fs q = os.ReadFile emptyWorld.fs q) ∧
    (∀ q, q ≠ infoLoc →
      (handler goProxy defaultCache (upstreamAnswering 200 os.Faults.none)
        (infoRequest (str "GET") []) emptyWorld).2.fs q = emptyWorld.fs q ∨
        (emptyWorld.fs q = none ∧
          (handler goProxy defaultCache (upstreamAnswering 200 os.Faults.none)
            (infoRequest (str "GET") []) emptyWorld).2.fs q = some os.Node.dir)) ∧
    (∀ data, os.ReadFile emptyWorld.fs infoLoc = some data →
      (handler goProxy defaultCache (upstreamAnswering 200 os.Faults.none)
        (infoRequest (str "GET") []) emptyWorld).2.fs = emptyWorld.fs)) :=
  ⟨by decide,
   handler_touches_own_location_only goProxy defaultCache
    (upstreamAnswering 200 os.Faults.none) (infoRequest (str "GET") [])
    emptyWorld infoPath infoLoc (by rfl) (by rfl)⟩

/-- With a request at hand `http.ServeContent` would reply 200 with the content. -/
theorem ServeContent_with_request (r : http.Request) (name modtime content : GoString)
    (hm : r.Method ≠ str "HEAD") :
    ∃ w, http.ServeContent http.ResponseWriter.fresh (some r) name modtime content = .ok w ∧
      w.status = some 200 ∧ w.body = content := by
  simp [http.ServeContent, hm, http.ResponseWriter.Write, http.ResponseWriter.WriteHeader,
    http.ResponseWriter.fresh]

/-- Every cache hit ends in the panic of `http.ServeContent(w, nil, ...)`: the client gets no
response; the store and the upstream calls are as before. -/
theorem hit_panics (upstream : GoString) (cache : FluxCache) (env : Env) (r : http.Request)
    (σ : World) (p data : GoString)
    (hp : url.PathUnescape (trimSlash r.Path) = .ok p)
    (hhit : cache.read σ.fs p = .ok (some data)) :
    handler upstream cache env r σ = (Outcome.panic Panic.nilDereference, σ) := by
  simp [handler, hp, FluxCache.serveFromCache, hhit, http.ServeContent]

set_option maxRecDepth 1000000 in
/-- C2, what the code does at the specification's scenario: the first request for
`github.com/foo/bar@v1.0.0.info` misses, is answered 200 with the upstream body and leaves
it in the store; the second, identical request finds it, makes no upstream call (the call
count stays 1), and panics in `http.ServeContent(w, nil, ...)`: no status 200 and no body
reach the client. -/
theorem second_request_panics :
    (∃ w, (handler goProxy defaultCache (upstreamAnswering 200 os.Faults.none)
        (infoRequest (str "GET") []) emptyWorld).1 = Outcome.response w ∧
      w.status = some 200 ∧ w.body = infoBody) ∧
    defaultCache.read (handler goProxy defaultCache (upstreamAnswering 200 os.Faults.none)
        (infoRequest (str "GET") []) emptyWorld).2.fs infoPath = .ok (some infoBody) ∧
    (handler goProxy defaultCache (upstreamAnswering 200 os.Faults.none)
        (infoRequest (str "GET") []) emptyWorld).2.calls.length = 1 ∧
    (handler goProxy defaultCache (upstreamAnswering 200 os.Faults.none)
        (infoRequest (str "GET") [])
        (handler goProxy defaultCache (upstreamAnswering 200 os.Faults.none)
          (infoRequest (str "GET") []) emptyWorld).2).1 =
      Outcome.panic Panic.nilDereference ∧
    (handler goProxy defaultCache (upstreamAnswering 200 os.Faults.none)
        (infoRequest (str "GET") [])
        (handler goProxy defaultCache (upstreamAnswering 200 os.Faults.none)
          (infoRequest (str "GET") []) emptyWorld).2).2.calls.length = 1 := by
  have h1 := handler_miss goProxy defaultCache (upstreamAnswering 200 os.Faults.none)
    (infoRequest (str "GET") []) emptyWorld infoPath infoLoc (by rfl) (by rfl) (by decide)
  rw [fetchAndCache_ok goProxy defaultCache (upstreamAnswering 200 os.Faults.none) _
    (infoRequest (str "GET") []) emptyWorld infoPath infoLoc infoBody
    ⟨200, jsonHeader, some infoBody⟩ (by rfl) rfl rfl rfl] at h1
  have hread : defaultCache.read (handler goProxy defaultCache
      (upstreamAnswering 200 os.Faults.none) (infoRequest (str "GET") []) emptyWorld).2.fs
      infoPath = .ok (some infoBody) := by rfl
  have h2 := hit_panics goProxy defaultCache (upstreamAnswering 200 os.Faults.none)
    (infoRequest (str "GET") []) _ infoPath infoBody (by rfl) hread
  refine ⟨⟨_, by rw [h1], served_status _ _, served_body _ _⟩, hread, ?_, ?_, ?_⟩
  · rw [h1]; rfl
  · rw [h2]
  · rw [h2, h1]; rfl

set_option maxRecDepth 1000000 in
/-- C10, what the code does for two requests for the same path, `GET ...?go-get=1` and
`HEAD ...?tab=versions`: on the empty store each would fetch its own upstream URL, and the
two URLs differ; once the first has stored the body, the second finds it under the same key
and makes no upstream call, but panics in `http.ServeContent(w, nil, ...)`: the stored body
is not served. -/
theorem other_query_hits_and_panics :
    upstreamURL goProxy (infoRequest (str "GET") (str "go-get=1")) ≠
      upstreamURL goProxy (infoRequest (str "HEAD") (str "tab=versions")) ∧
    (handler goProxy defaultCache (upstreamAnswering 200 os.Faults.none)
        (infoRequest (str "GET") (str "go-get=1")) emptyWorld).2.calls =
      [upstreamURL goProxy (infoRequest (str "GET") (str "go-get=1"))] ∧
    (handler goProxy defaultCache (upstreamAnswering 200 os.Faults.none)
        (infoRequest (str "HEAD") (str "tab=versions")) emptyWorld).2.calls =
      [upstreamURL goProxy (infoRequest (str "HEAD") (str "tab=versions"))] ∧
    defaultCache.read (handler goProxy defaultCache (upstreamAnswering 200 os.Faults.none)
        (infoRequest (str "GET") (str "go-get=1")) emptyWorld).2.fs infoPath =
      .ok (some infoBody) ∧
    handler goProxy defaultCache (upstreamAnswering 200 os.Faults.none)
        (infoRequest (str "HEAD") (str "tab=versions"))
        (handler goProxy defaultCache (upstreamAnswering 200 os.Faults.none)
          (infoRequest (str "GET") (str "go-get=1")) emptyWorld).2 =
      (Outcome.panic Panic.nilDereference,
        (handler goProxy defaultCache (upstreamAnswering 200 os.Faults.none)
          (infoRequest (str "GET") (str "go-get=1")) emptyWorld).2) := by
  have hread : defaultCache.read (handler goProxy defaultCache
      (upstreamAnswering 200 os.Faults.none) (infoRequest (str "GET") (str "go-get=1"))
      emptyWorld).2.fs infoPath = .ok (some infoBody) := by rfl
  refine ⟨by decide, ?_, ?_, hread, ?_⟩
  · rw [handler_miss goProxy defaultCache _ _ emptyWorld infoPath infoLoc (by rfl) (by rfl)
      (by decide), fetchAndCache_calls]
    rfl
  · rw [handler_miss goProxy defaultCache _ _ emptyWorld infoPath infoLoc (by rfl) (by rfl)
      (by decide), fetchAndCache_calls]
    rfl
  · exact hit_panics goProxy defaultCache _ _ _ infoPath infoBody (by rfl) hread

theorem isLowerHex_plain {b : Byte} (h : isLowerHex b = true) : b ≠ Separator ∧ b ≠ Dot := by
  constructor
  · intro e; rw [e] at h; revert h; decide
  · intro e; rw [e] at h; revert h; decide

theorem hashOf_lower (p : GoString) : ∀ b ∈ hashOf p, isLowerHex b = true :=
  EncodeToString_lower _

theorem plainElem_of_lower (seg : GoString) (hne : seg ≠ [])
    (h : ∀ b ∈ seg, isLowerHex b = true) : plainElem seg :=
  ⟨hne, fun b hb => isLowerHex_plain (h b hb)⟩

theorem hash_elems (p : GoString) :
    plainElem ((hashOf p).take 2) ∧ plainElem (((hashOf p).take 4).drop 2) ∧
      plainElem (hashOf p) ∧ 2 ≤ ((hashOf p).take 2).length := by
  have hl := hashOf_length p
  have hlow := hashOf_lower p
  have ne_of_len : ∀ l : GoString, 0 < l.length → l ≠ [] := by
    intro l h e; rw [e] at h; simp at h
  refine ⟨plainElem_of_lower _ (ne_of_len _ (by simp [hl])) ?_,
    plainElem_of_lower _ (ne_of_len _ (by simp [hl])) ?_,
    plainElem_of_lower _ (ne_of_len _ (by simp [hl])) hlow, by simp [hl]⟩
  · intro b hb
    exact hlow b (List.mem_of_mem_take hb)
  · intro b hb
    exact hlow b (List.mem_of_mem_take (List.mem_of_mem_drop hb))

/-- C6, as amended: for every cache root and module path `p`, `cachePath(p)` never fails; the
hash is the SHA-256 of the bytes of `p` in 64 lowercase hexadecimal characters, so the slices
`hash[:2]` and `hash[2:4]` are in bounds; the result is `hash[:2]/hash[2:4]/hash` under the
lexically cleaned root (`filepath.Join`): nothing stands before it when the cleaned root is
`.` (the empty root included), a single `/` when it is `/`, and `<cleaned root>/` otherwise;
it is literally `<root>/<hash[:2]>/<hash[2:4]>/<hash>` when the root is already clean and is
neither `.` nor `/`; and it depends on the root and `p` only. -/
theorem cachePath_under_cleaned_root (c : FluxCache) (p : GoString) :
    hashOf p = hex.EncodeToString (sha256.Sum256 p) ∧
    (hashOf p).length = 64 ∧
    (∀ b ∈ hashOf p, isLowerHex b = true) ∧
    slice (hashOf p) 0 2 = .ok ((hashOf p).take 2) ∧
    slice (hashOf p) 2 4 = .ok (((hashOf p).take 4).drop 2) ∧
    c.cachePath p = .ok (dirPrefix (Clean c.cacheRoot) ++ (hashOf p).take 2 ++ [Separator] ++
      ((hashOf p).take 4).drop 2 ++ [Separator] ++ hashOf p) ∧
    (Clean c.cacheRoot = c.cacheRoot → c.cacheRoot ≠ [Dot] → c.cacheRoot ≠ [Separator] →
      c.cachePath p = .ok (specLocation c.cacheRoot p)) ∧
    (∀ c1 : FluxCache, c1.cacheRoot = c.cacheRoot → c1.cachePath p = c.cachePath p) := by
  have hl := hashOf_length p
  obtain ⟨h1, h2, h3, h4⟩ := hash_elems p
  have hmain : c.cachePath p = .ok (dirPrefix (Clean c.cacheRoot) ++ (hashOf p).take 2 ++
      [Separator] ++ ((hashOf p).take 4).drop 2 ++ [Separator] ++ hashOf p) := by
    rw [cachePath_eq, Join_under_root _ _ _ _ h1 h2 h3 h4]
  refine ⟨rfl, hl, hashOf_lower p, by simp [slice, hl], by simp [slice, hl], hmain, ?_, ?_⟩
  · intro hc hd hs
    rw [hmain, hc]
    simp only [dirPrefix, if_neg hd, if_neg hs, specLocation]
  · intro c1 h
    cases c1
    cases c
    simp only at h
    rw [h]

set_option maxRecDepth 1000000 in
/-- C6 as amended, at the roots `fluxcache` (clean) and `./fluxcache` (the default, which
cleans to `fluxcache`). -/
theorem cachePath_under_cleaned_root_witness :
    Clean (str "fluxcache") = str "fluxcache" ∧ str "fluxcache" ≠ [Dot] ∧
    str "fluxcache" ≠ [Separator] ∧
    FluxCache.cachePath ⟨str "fluxcache"⟩ infoPath = .ok (specLocation (str "fluxcache") infoPath) ∧
    defaultCache.cachePath infoPath = .ok (dirPrefix (Clean (str "./fluxcache")) ++
      (hashOf infoPath).take 2 ++ [Separator] ++ ((hashOf infoPath).take 4).drop 2 ++
      [Separator] ++ hashOf infoPath) :=
  ⟨by decide, by decide, by decide,
   (cachePath_under_cleaned_root ⟨str "fluxcache"⟩ infoPath).2.2.2.2.2.2.1
    (by decide) (by decide) (by decide),
   (cachePath_under_cleaned_root defaultCache infoPath).2.2.2.2.2.1⟩

set_option maxRecDepth 1000000 in
/-- C6 as stated fails: with the empty root the location is the relative path
`e3/b0/e3b0...` and not `/e3/b0/e3b0...`, and with the default root `./fluxcache` it is
`fluxcache/f1/8e/f18e...` and not `./fluxcache/f1/8e/f18e...`. -/
theorem cachePath_differs_from_spec_location :
    FluxCache.cachePath ⟨[]⟩ [] = .ok (str
      "e3/b0/e3b0c44298fc1c149afbf4c8996fb92427ae41e4649b934ca495991b7852b855") ∧
    FluxCache.cachePath ⟨[]⟩ [] ≠ .ok (specLocation [] []) ∧
    specLocation [] [] = str
      "/e3/b0/e3b0c44298fc1c149afbf4c8996fb92427ae41e4649b934ca495991b7852b855" ∧
    defaultCache.cachePath infoPath = .ok infoLoc ∧
    defaultCache.cachePath infoPath ≠ .ok (specLocation defaultCache.cacheRoot infoPath) := by
  have h1 : FluxCache.cachePath ⟨[]⟩ [] = .ok (str
      "e3/b0/e3b0c44298fc1c149afbf4c8996fb92427ae41e4649b934ca495991b7852b855") := by rfl
  have h2 : defaultCache.cachePath infoPath = .ok infoLoc := by rfl
  refine ⟨h1, ?_, by decide, h2, ?_⟩
  · rw [h1]
    intro e
    have := Except.ok.inj e
    revert this
    decide
  · rw [h2]
    intro e
    have := Except.ok.inj e
    revert this
    decide

end Fluxor
